import Mathlib

/-! LDAP user provider (`internal/authentication/ldap_user_provider.go`)

A shallow embedding of the LDAP user provider and of the connection interface it drives
(`internal/authentication/types.go`).

Modelling conventions:

* The connection factory and its connections are an arbitrary deterministic environment `Env`:
  every method call is answered by a function of the whole history of calls made so far, so a
  statement quantified over `Env` covers every behaviour of the factory (test double or network).
* The history is a `Trace`, the chronological list of calls together with their answers.  A
  connection is named by the position of the successful `DialURL` that produced it.
* Go results `(T, error)` that hold exactly one of the two are `Except GoError T`; pointers that
  may be nil are `Option`; a run-time panic (nil dereference, index out of range) is the outcome
  `Outcome.panicked`.  Deferred `Close` calls run on both kinds of exit, as in Go.
* A method of the connection interface that returns `err == nil` returns a usable value; with a
  non-nil error, `Search` may or may not return a (possibly incomplete) result.
* The logger, the TLS configuration and the dial options are passed through unchanged by the
  code and are left out.
* Go strings that hold text are `String`; attribute values written by a modify request are byte
  strings (`List Nat`, every element below 256).
-/

namespace Authelia

/-! ## Errors -/

/-- Go `error` values.  `ext` is an error produced by the directory connection or the factory,
`ErrUserNotFound` is the package sentinel, `errorf` is `fmt.Errorf` without `%w` and `errorfW`
is `fmt.Errorf` whose last verb `%w` wraps `cause`. -/
inductive GoError where
  | ext (code : Nat)
  | ErrUserNotFound
  | errorf (format : String) (args : List String)
  | errorfW (format : String) (args : List String) (cause : GoError)
  deriving DecidableEq, Repr

/-- Go `errors.Is(err, target)` for comparable error values. -/
def errorsIs : GoError → GoError → Bool
  | .errorfW f a cause, target =>
      decide (GoError.errorfW f a cause = target) || errorsIs cause target
  | e, target => decide (e = target)

/-- Outcome of running a piece of Go code: it returns a value or it panics. -/
inductive Outcome (α : Type) where
  | ret (a : α)
  | panicked (msg : String)
  deriving DecidableEq, Repr

/-! ## Directory data (`github.com/go-ldap/ldap/v3`) -/

/-- Go `ldap.EntryAttribute`: the fields `Name` and `Values`. -/
structure EntryAttribute where
  Name : String
  Values : List String
  deriving DecidableEq, Repr

/-- Go `ldap.Entry`. -/
structure Entry where
  DN : String
  Attributes : List EntryAttribute
  deriving DecidableEq, Repr

/-- Go `ldap.SearchResult`: the fields `Entries` and `Referrals`. -/
structure SearchResult where
  Entries : List Entry
  Referrals : List String
  deriving DecidableEq, Repr

/-- Search scopes of the LDAP library. -/
inductive Scope where
  | ScopeBaseObject
  | ScopeSingleLevel
  | ScopeWholeSubtree
  deriving DecidableEq, Repr

/-- Alias dereferencing policies of the LDAP library. -/
inductive DerefAliases where
  | NeverDerefAliases
  | DerefInSearching
  | DerefFindingBaseObj
  | DerefAlways
  deriving DecidableEq, Repr

/-- Go `ldap.SearchRequest` as built by `ldap.NewSearchRequest` (controls are always nil). -/
structure SearchRequest where
  BaseDN : String
  Scope : Scope
  DerefAliases : DerefAliases
  SizeLimit : Nat
  TimeLimit : Nat
  TypesOnly : Bool
  Filter : String
  Attributes : List String
  deriving DecidableEq, Repr

/-- Operation of one change of a modify request. -/
inductive ModOp where
  | AddAttribute
  | DeleteAttribute
  | ReplaceAttribute
  | IncrementAttribute
  deriving DecidableEq, Repr

/-- One change of a modify request: the operation, the attribute type and the values, each a
byte string. -/
structure Change where
  Operation : ModOp
  AttrType : String
  Vals : List (List Nat)
  deriving DecidableEq, Repr

/-- Go `ldap.ModifyRequest` (controls are always nil in this program). -/
structure ModifyRequest where
  DN : String
  Changes : List Change
  deriving DecidableEq, Repr

/-- Go `ldap.NewModifyRequest(dn, controls)`. -/
def NewModifyRequest (dn : String) : ModifyRequest :=
  { DN := dn, Changes := [] }

/-- Go `(*ldap.ModifyRequest).Replace(attrType, attrVals)`. -/
def ModifyRequest.Replace (req : ModifyRequest) (attrType : String) (attrVals : List (List Nat)) :
    ModifyRequest :=
  { req with Changes := req.Changes ++ [{ Operation := .ReplaceAttribute, AttrType := attrType,
                                          Vals := attrVals }] }

/-- Go `ldap.PasswordModifyRequest` as built by `ldap.NewPasswordModifyRequest`. -/
structure PasswordModifyRequest where
  UserIdentity : String
  OldPassword : String
  NewPassword : String
  deriving DecidableEq, Repr

/-- Answer of `LDAPConnection.Search`: a result with a nil error, or a non-nil error together
with a result pointer that may be nil. -/
inductive SearchResponse where
  | ok (result : SearchResult)
  | fail (result : Option SearchResult) (err : GoError)
  deriving DecidableEq, Repr

/-! ## The connection factory as an environment -/

/-- Name of a connection: the position in the history of the dial that produced it. -/
abbrev ConnId := Nat

/-- One call on the factory or on a connection, with the answer it got. -/
inductive Event where
  | dialed (url : String) (conn : ConnId)
  | dialFailed (url : String) (err : GoError)
  | startTLS (conn : ConnId) (res : Option GoError)
  | bind (conn : ConnId) (username password : String) (res : Option GoError)
  | search (conn : ConnId) (req : SearchRequest) (res : SearchResponse)
  | modify (conn : ConnId) (req : ModifyRequest) (res : Option GoError)
  | passwordModify (conn : ConnId) (req : PasswordModifyRequest) (res : Option GoError)
  | close (conn : ConnId)
  deriving DecidableEq, Repr

/-- The chronological history of calls. -/
abbrev Trace := List Event

/-- Behaviour of `LDAPConnectionFactory` and of every `LDAPConnection` it hands out
(`types.go`): each method answers as a function of the history so far and of its arguments.
`none` is a nil error. -/
structure Env where
  DialURL : Trace → String → Option GoError
  StartTLS : Trace → ConnId → Option GoError
  Bind : Trace → ConnId → String → String → Option GoError
  Search : Trace → ConnId → SearchRequest → SearchResponse
  Modify : Trace → ConnId → ModifyRequest → Option GoError
  PasswordModify : Trace → ConnId → PasswordModifyRequest → Option GoError

/-- Call `factory.DialURL(url, opts...)`. -/
def factoryDialURL (env : Env) (url : String) (t : Trace) : Except GoError ConnId × Trace :=
  match env.DialURL t url with
  | none => (.ok t.length, t ++ [.dialed url t.length])
  | some err => (.error err, t ++ [.dialFailed url err])

/-- Call `conn.StartTLS(config)`. -/
def connStartTLS (env : Env) (conn : ConnId) (t : Trace) : Option GoError × Trace :=
  (env.StartTLS t conn, t ++ [.startTLS conn (env.StartTLS t conn)])

/-- Call `conn.Bind(username, password)`. -/
def connBind (env : Env) (conn : ConnId) (username password : String) (t : Trace) :
    Option GoError × Trace :=
  (env.Bind t conn username password,
   t ++ [.bind conn username password (env.Bind t conn username password)])

/-- Call `conn.Search(searchRequest)`. -/
def connSearch (env : Env) (conn : ConnId) (req : SearchRequest) (t : Trace) :
    SearchResponse × Trace :=
  (env.Search t conn req, t ++ [.search conn req (env.Search t conn req)])

/-- Call `conn.Modify(modifyRequest)`. -/
def connModify (env : Env) (conn : ConnId) (req : ModifyRequest) (t : Trace) :
    Option GoError × Trace :=
  (env.Modify t conn req, t ++ [.modify conn req (env.Modify t conn req)])

/-- Call `conn.PasswordModify(pwdModifyRequest)`; the result value is discarded by every
caller, only the error is kept. -/
def connPasswordModify (env : Env) (conn : ConnId) (req : PasswordModifyRequest) (t : Trace) :
    Option GoError × Trace :=
  (env.PasswordModify t conn req,
   t ++ [.passwordModify conn req (env.PasswordModify t conn req)])

/-- Call `conn.Close()`. -/
def connClose (conn : ConnId) (t : Trace) : Trace :=
  t ++ [.close conn]

/-! ## Provider state and the declarations it uses from outside the listed sources -/

/-- The fields of `schema.LDAPAuthenticationBackendConfiguration` that the provider reads. -/
structure LDAPAuthenticationBackendConfiguration where
  Implementation : String
  URL : String
  StartTLS : Bool
  UsersFilter : String
  UsernameAttribute : String
  MailAttribute : String
  DisplayNameAttribute : String
  GroupsFilter : String
  PermitReferrals : Bool
  User : String
  Password : String

/-- Go `LDAPUserProvider` (without logger, TLS configuration and dial options). -/
structure LDAPUserProvider where
  config : LDAPAuthenticationBackendConfiguration
  disableResetPassword : Bool
  supportExtensionPasswdModify : Bool
  usersBaseDN : String
  usersAttributes : List String
  usersFilterReplacementInput : Bool
  groupsBaseDN : String
  groupsAttributes : List String
  groupsFilterReplacementInput : Bool
  groupsFilterReplacementUsername : Bool
  groupsFilterReplacementDN : Bool

/-- Constants and helper functions that the provider uses and that are declared in other files
of the package or in the LDAP library; they are parameters of the embedding.
`ldapGetReferral` is `some referral` exactly when the Go function returns `ok = true`. -/
structure Externals where
  ldapGetReferral : GoError → Option String
  ldapEscape : String → String
  EscapeFilter : String → String
  ldapPlaceholderInput : String
  ldapPlaceholderUsername : String
  ldapPlaceholderDistinguishedName : String
  ldapAttributeUnicodePwd : String
  ldapAttributeUserPassword : String
  LDAPImplementationActiveDirectory : String

/-- Go `UserDetails` (`types.go`). -/
structure UserDetails where
  Username : String
  DisplayName : String
  Emails : List String
  Groups : List String
  deriving DecidableEq, Repr

/-- Go `ldapUserProfile` (`types.go`). -/
structure ldapUserProfile where
  DN : String
  Emails : List String
  DisplayName : String
  Username : String
  deriving DecidableEq, Repr

/-! ## Connecting -/

/-- Go `connectCustom`: dial, optionally upgrade with StartTLS, bind. -/
def connectCustom (env : Env) (url userDN password : String) (startTLS : Bool) (t : Trace) :
    Except GoError ConnId × Trace :=
  match factoryDialURL env url t with
  | (.error err, t1) => (.error (.errorfW "dial failed with error: %w" [] err), t1)
  | (.ok conn, t1) =>
    match (if startTLS then connStartTLS env conn t1 else (none, t1)) with
    | (some err, t2) => (.error (.errorfW "starttls failed with error: %w" [] err), t2)
    | (none, t2) =>
      match connBind env conn userDN password t2 with
      | (some err, t3) => (.error (.errorfW "bind failed with error: %w" [] err), t3)
      | (none, t3) => (.ok conn, t3)

/-- Go `connect`: `connectCustom` with the service account. -/
def connect (p : LDAPUserProvider) (env : Env) (t : Trace) : Except GoError ConnId × Trace :=
  connectCustom env p.config.URL p.config.User p.config.Password p.config.StartTLS t

/-- Go `getReferral`. -/
def getReferral (x : Externals) (p : LDAPUserProvider) (err : GoError) : Option String :=
  if !p.config.PermitReferrals then none else x.ldapGetReferral err

/-! ## Filters -/

/-- Worker of `stringsReplaceAll`: the first argument counts the characters of a match that
are still to be skipped. -/
def stringsReplaceAllAux (old new : List Char) : Nat → List Char → List Char
  | _, [] => if old = [] then new else []
  | k + 1, _ :: cs => stringsReplaceAllAux old new k cs
  | 0, c :: cs =>
    if old = [] then new ++ c :: stringsReplaceAllAux old new 0 cs
    else if old.isPrefixOf (c :: cs) then new ++ stringsReplaceAllAux old new (old.length - 1) cs
    else c :: stringsReplaceAllAux old new 0 cs

/-- Go `strings.ReplaceAll(s, old, new)`: every non-overlapping instance of `old`, from the
left, is replaced by `new`; an empty `old` matches before every character and at the end. -/
def stringsReplaceAll (s old new : String) : String :=
  String.mk (stringsReplaceAllAux old.data new.data 0 s.data)

/-- Go `resolveUsersFilter`. -/
def resolveUsersFilter (x : Externals) (p : LDAPUserProvider) (inputUsername : String) : String :=
  if p.usersFilterReplacementInput then
    stringsReplaceAll p.config.UsersFilter x.ldapPlaceholderInput (x.ldapEscape inputUsername)
  else p.config.UsersFilter

/-- Go `resolveGroupsFilter`; `profile` is a pointer that may be nil and the returned error is
always nil. -/
def resolveGroupsFilter (x : Externals) (p : LDAPUserProvider) (inputUsername : String)
    (profile : Option ldapUserProfile) : String × Option GoError :=
  let filter0 :=
    if p.groupsFilterReplacementInput then
      stringsReplaceAll p.config.GroupsFilter x.ldapPlaceholderInput (x.ldapEscape inputUsername)
    else p.config.GroupsFilter
  match profile with
  | none => (filter0, none)
  | some prof =>
    let filter1 :=
      if p.groupsFilterReplacementUsername then
        stringsReplaceAll filter0 x.ldapPlaceholderUsername (x.EscapeFilter prof.Username)
      else filter0
    let filter2 :=
      if p.groupsFilterReplacementDN then
        stringsReplaceAll filter1 x.ldapPlaceholderDistinguishedName (x.EscapeFilter prof.DN)
      else filter1
    (filter2, none)

/-! ## Searching and referrals -/

/-- Modelled from the spec: `ldapEntriesContainsEntry` is declared in a file of the package that
is not among the listed sources.  The spec merges a referral record when it is "not already
present (by structural identity)", and its glossary names the identity handle (DN) "the
structurally unique path identifying a record within the directory": the test is whether the
haystack holds an entry with the DN of the needle, whatever the attributes of the two. -/
def ldapEntriesContainsEntry (needle : Entry) (haystack : List Entry) : Bool :=
  haystack.any fun entry => decide (entry.DN = needle.DN)

/-- The merging loop of `searchReferral` (lines 287-291): each entry of the referral result, in
order, is appended to the entries collected so far unless they already contain it. -/
def searchReferralMerge : List Entry → List Entry → List Entry
  | [], acc => acc
  | e :: es, acc =>
    if !ldapEntriesContainsEntry e acc then searchReferralMerge es (acc ++ [e])
    else searchReferralMerge es acc

/-- Go `searchReferral`.  `searchResult` is the caller's pointer; the function appends to the
result it points to, so the updated pointer target is returned next to the error. -/
def searchReferral (p : LDAPUserProvider) (env : Env) (referral : String)
    (searchRequest : SearchRequest) (searchResult : Option SearchResult) (t : Trace) :
    Outcome (Option SearchResult × Option GoError) × Trace :=
  match connectCustom env referral p.config.User p.config.Password p.config.StartTLS t with
  | (.error err, t1) => (.ret (searchResult, some err), t1)
  | (.ok conn, t1) =>
    let r : Outcome (Option SearchResult × Option GoError) × Trace :=
      match connSearch env conn searchRequest t1 with
      | (.fail _ err, t2) => (.ret (searchResult, some err), t2)
      | (.ok result, t2) =>
        if result.Entries.length = 0 then (.ret (searchResult, none), t2)
        else
          match searchResult with
          | none => (.panicked "invalid memory address or nil pointer dereference", t2)
          | some sr =>
            (.ret (some { sr with Entries := searchReferralMerge result.Entries sr.Entries },
                   none), t2)
    (r.1, connClose conn r.2)

/-- Go `searchReferrals`: the referrals of the result are visited in order and the error of
each visit is discarded. -/
def searchReferrals (p : LDAPUserProvider) (env : Env) (searchRequest : SearchRequest) :
    List String → Option SearchResult → Trace → Outcome (Option SearchResult) × Trace
  | [], searchResult, t => (.ret searchResult, t)
  | referral :: rest, searchResult, t =>
    match searchReferral p env referral searchRequest searchResult t with
    | (.panicked msg, t1) => (.panicked msg, t1)
    | (.ret (searchResult1, _), t1) => searchReferrals p env searchRequest rest searchResult1 t1

/-- Go `search`. -/
def search (x : Externals) (p : LDAPUserProvider) (env : Env) (conn : ConnId)
    (searchRequest : SearchRequest) (t : Trace) :
    Outcome (Option SearchResult × Option GoError) × Trace :=
  match connSearch env conn searchRequest t with
  | (.fail searchResult err, t1) =>
    match getReferral x p err with
    | some referral =>
      match searchReferral p env referral searchRequest searchResult t1 with
      | (.panicked msg, t2) => (.panicked msg, t2)
      | (.ret (_, some _), t2) => (.ret (none, some err), t2)
      | (.ret (searchResult1, none), t2) => (.ret (searchResult1, none), t2)
    | none => (.ret (none, some err), t1)
  | (.ok searchResult, t1) =>
    if !p.config.PermitReferrals || searchResult.Referrals.length = 0 then
      (.ret (some searchResult, none), t1)
    else
      match searchReferrals p env searchRequest searchResult.Referrals (some searchResult) t1 with
      | (.panicked msg, t2) => (.panicked msg, t2)
      | (.ret searchResult1, t2) => (.ret (searchResult1, none), t2)

/-! ## Profile resolution -/

/-- The attribute loop of `getUserProfile` (lines 329-346). -/
def getUserProfileAttributes (p : LDAPUserProvider) (inputUsername : String) :
    List EntryAttribute → ldapUserProfile → Outcome (Except GoError ldapUserProfile)
  | [], userProfile => .ret (.ok userProfile)
  | attr :: rest, userProfile =>
    let afterDisplayName : Option ldapUserProfile :=
      if attr.Name = p.config.DisplayNameAttribute then
        match attr.Values with
        | [] => none
        | v :: _ => some { userProfile with DisplayName := v }
      else some userProfile
    match afterDisplayName with
    | none => .panicked "index out of range [0] with length 0"
    | some userProfile1 =>
      let userProfile2 :=
        if attr.Name = p.config.MailAttribute then { userProfile1 with Emails := attr.Values }
        else userProfile1
      if attr.Name = p.config.UsernameAttribute then
        match attr.Values with
        | [v] => getUserProfileAttributes p inputUsername rest { userProfile2 with Username := v }
        | _ =>
          .ret (.error (.errorf "user '%s' cannot have multiple value for attribute '%s'"
            [inputUsername, p.config.UsernameAttribute]))
      else getUserProfileAttributes p inputUsername rest userProfile2

/-- The search request that `getUserProfile` builds (lines 303-309). -/
def getUserProfileSearchRequest (x : Externals) (p : LDAPUserProvider) (inputUsername : String) :
    SearchRequest :=
  { BaseDN := p.usersBaseDN, Scope := .ScopeWholeSubtree, DerefAliases := .NeverDerefAliases,
    SizeLimit := 1, TimeLimit := 0, TypesOnly := false,
    Filter := resolveUsersFilter x p inputUsername, Attributes := p.usersAttributes }

/-- Go `getUserProfile`. -/
def getUserProfile (x : Externals) (p : LDAPUserProvider) (env : Env) (conn : ConnId)
    (inputUsername : String) (t : Trace) : Outcome (Except GoError ldapUserProfile) × Trace :=
  match search x p env conn (getUserProfileSearchRequest x p inputUsername) t with
  | (.panicked msg, t1) => (.panicked msg, t1)
  | (.ret (_, some err), t1) =>
    (.ret (.error (.errorfW "cannot find user DN of user '%s'. Cause: %w" [inputUsername] err)),
     t1)
  | (.ret (none, none), t1) =>
    (.panicked "invalid memory address or nil pointer dereference", t1)
  | (.ret (some searchResult, none), t1) =>
    match searchResult.Entries with
    | [] => (.ret (.error .ErrUserNotFound), t1)
    | _ :: _ :: _ => (.ret (.error (.errorf "multiple users %s found" [inputUsername])), t1)
    | [entry] =>
      match getUserProfileAttributes p inputUsername entry.Attributes
          { DN := entry.DN, Emails := [], DisplayName := "", Username := "" } with
      | .panicked msg => (.panicked msg, t1)
      | .ret (.error err) => (.ret (.error err), t1)
      | .ret (.ok userProfile) =>
        if userProfile.DN = "" then
          (.ret (.error (.errorf "no DN has been found for user %s" [inputUsername])), t1)
        else (.ret (.ok userProfile), t1)

/-! ## Writes -/

/-- Go `modify`. -/
def modify (x : Externals) (p : LDAPUserProvider) (env : Env) (conn : ConnId)
    (modifyRequest : ModifyRequest) (t : Trace) : Option GoError × Trace :=
  match connModify env conn modifyRequest t with
  | (none, t1) => (none, t1)
  | (some err, t1) =>
    match getReferral x p err with
    | none => (some err, t1)
    | some referral =>
      match connectCustom env referral p.config.User p.config.Password p.config.StartTLS t1 with
      | (.error _, t2) => (some err, t2)
      | (.ok connReferral, t2) =>
        (some err, connClose connReferral (connModify env connReferral modifyRequest t2).2)

/-- Go `pwdModify`. -/
def pwdModify (x : Externals) (p : LDAPUserProvider) (env : Env) (conn : ConnId)
    (pwdModifyRequest : PasswordModifyRequest) (t : Trace) : Option GoError × Trace :=
  match connPasswordModify env conn pwdModifyRequest t with
  | (none, t1) => (none, t1)
  | (some err, t1) =>
    match getReferral x p err with
    | none => (some err, t1)
    | some referral =>
      match connectCustom env referral p.config.User p.config.Password p.config.StartTLS t1 with
      | (.error _, t2) => (some err, t2)
      | (.ok connReferral, t2) =>
        (some err,
         connClose connReferral (connPasswordModify env connReferral pwdModifyRequest t2).2)

/-! ## Byte encodings -/

/-- The UTF-8 bytes of one Unicode scalar value. -/
def utf8EncodeRune (r : Nat) : List Nat :=
  if r < 0x80 then [r]
  else if r < 0x800 then [0xC0 + r / 0x40, 0x80 + r % 0x40]
  else if r < 0x10000 then [0xE0 + r / 0x1000, 0x80 + r / 0x40 % 0x40, 0x80 + r % 0x40]
  else [0xF0 + r / 0x40000, 0x80 + r / 0x1000 % 0x40, 0x80 + r / 0x40 % 0x40, 0x80 + r % 0x40]

/-- The bytes of a Go string holding the text `s` (Go strings are UTF-8). -/
def stringBytes (s : String) : List Nat :=
  (s.data.map fun c => utf8EncodeRune c.toNat).flatten

/-- The bytes that the UTF-16 encoder of `golang.org/x/text/encoding/unicode` writes for one
Unicode scalar value with little-endian byte order: one code unit up to U+FFFF, a surrogate
pair above, the low byte of each unit first. -/
def utf16LittleEndianRune (r : Nat) : List Nat :=
  if r ≤ 0xFFFF then [r % 0x100, r / 0x100]
  else
    let r1 := 0xD800 + (r - 0x10000) / 0x400 % 0x400
    let r2 := 0xDC00 + (r - 0x10000) % 0x400
    [r1 % 0x100, r1 / 0x100, r2 % 0x100, r2 / 0x100]

/-- Go `utf16LittleEndian.NewEncoder().String(s)` with
`utf16LittleEndian = unicode.UTF16(unicode.LittleEndian, unicode.IgnoreBOM)` (`types.go`):
the encoder writes no byte-order mark and cannot fail on text. -/
def utf16LittleEndian (s : String) : List Nat :=
  (s.data.map fun c => utf16LittleEndianRune c.toNat).flatten

/-! ## The three public operations -/

/-- Go `CheckUserPassword`. -/
def CheckUserPassword (x : Externals) (p : LDAPUserProvider) (env : Env)
    (inputUsername password : String) (t : Trace) : Outcome (Bool × Option GoError) × Trace :=
  match connect p env t with
  | (.error err, t1) => (.ret (false, some err), t1)
  | (.ok conn, t1) =>
    let r : Outcome (Bool × Option GoError) × Trace :=
      match getUserProfile x p env conn inputUsername t1 with
      | (.panicked msg, t2) => (.panicked msg, t2)
      | (.ret (.error err), t2) => (.ret (false, some err), t2)
      | (.ret (.ok profile), t2) =>
        match connectCustom env p.config.URL profile.DN password p.config.StartTLS t2 with
        | (.error err, t3) =>
          (.ret (false, some (.errorfW "authentication failed. Cause: %w" [] err)), t3)
        | (.ok connUser, t3) => (.ret (true, none), connClose connUser t3)
    (r.1, connClose conn r.2)

/-- The group loop of `GetDetails` (lines 150-158). -/
def GetDetailsGroups : List Entry → List String → List String
  | [], groups => groups
  | res :: rest, groups =>
    match res.Attributes with
    | [] => groups
    | attr :: _ => GetDetailsGroups rest (groups ++ attr.Values)

/-- The search request that `GetDetails` builds (lines 139-142). -/
def GetDetailsSearchRequest (p : LDAPUserProvider) (filter : String) : SearchRequest :=
  { BaseDN := p.groupsBaseDN, Scope := .ScopeWholeSubtree, DerefAliases := .NeverDerefAliases,
    SizeLimit := 0, TimeLimit := 0, TypesOnly := false, Filter := filter,
    Attributes := p.groupsAttributes }

/-- Go `GetDetails`. -/
def GetDetails (x : Externals) (p : LDAPUserProvider) (env : Env) (username : String)
    (t : Trace) : Outcome (Except GoError UserDetails) × Trace :=
  match connect p env t with
  | (.error err, t1) => (.ret (.error err), t1)
  | (.ok conn, t1) =>
    let r : Outcome (Except GoError UserDetails) × Trace :=
      match getUserProfile x p env conn username t1 with
      | (.panicked msg, t2) => (.panicked msg, t2)
      | (.ret (.error err), t2) => (.ret (.error err), t2)
      | (.ret (.ok profile), t2) =>
        match resolveGroupsFilter x p username (some profile) with
        | (_, some err) =>
          (.ret (.error (.errorfW "unable to create group filter for user '%s'. Cause: %w"
            [username] err)), t2)
        | (filter, none) =>
          match search x p env conn (GetDetailsSearchRequest p filter) t2 with
          | (.panicked msg, t3) => (.panicked msg, t3)
          | (.ret (_, some err), t3) =>
            (.ret (.error (.errorfW "unable to retrieve groups of user '%s'. Cause: %w"
              [username] err)), t3)
          | (.ret (none, none), t3) =>
            (.panicked "invalid memory address or nil pointer dereference", t3)
          | (.ret (some searchResult, none), t3) =>
            (.ret (.ok { Username := profile.Username, DisplayName := profile.DisplayName,
                         Emails := profile.Emails,
                         Groups := GetDetailsGroups searchResult.Entries [] }), t3)
    (r.1, connClose conn r.2)

/-- The request that `UpdatePassword` builds and sends (lines 187-209), and its error. -/
def UpdatePasswordDispatch (x : Externals) (p : LDAPUserProvider) (env : Env) (conn : ConnId)
    (profile : ldapUserProfile) (password : String) (t : Trace) : Option GoError × Trace :=
  if p.supportExtensionPasswdModify then
    pwdModify x p env conn
      { UserIdentity := profile.DN, OldPassword := "", NewPassword := password } t
  else if p.config.Implementation = x.LDAPImplementationActiveDirectory then
    modify x p env conn
      ((NewModifyRequest profile.DN).Replace x.ldapAttributeUnicodePwd
        [utf16LittleEndian ("\"" ++ password ++ "\"")]) t
  else
    modify x p env conn
      ((NewModifyRequest profile.DN).Replace x.ldapAttributeUserPassword
        [stringBytes password]) t

/-- Go `UpdatePassword`. -/
def UpdatePassword (x : Externals) (p : LDAPUserProvider) (env : Env)
    (username password : String) (t : Trace) : Outcome (Option GoError) × Trace :=
  match connect p env t with
  | (.error err, t1) => (.ret (some (.errorfW "unable to update password. Cause: %w" [] err)), t1)
  | (.ok conn, t1) =>
    let r : Outcome (Option GoError) × Trace :=
      match getUserProfile x p env conn username t1 with
      | (.panicked msg, t2) => (.panicked msg, t2)
      | (.ret (.error err), t2) =>
        (.ret (some (.errorfW "unable to update password. Cause: %w" [] err)), t2)
      | (.ret (.ok profile), t2) =>
        match UpdatePasswordDispatch x p env conn profile password t2 with
        | (some err, t3) =>
          (.ret (some (.errorfW "unable to update password. Cause: %w" [] err)), t3)
        | (none, t3) => (.ret none, t3)
    (r.1, connClose conn r.2)

/-! ## Observations on histories -/

/-- The addresses passed to `DialURL`, in order, whether the dial succeeded or not. -/
def dialURLs (t : Trace) : List String :=
  t.filterMap fun ev =>
    match ev with
    | .dialed url _ => some url
    | .dialFailed url _ => some url
    | _ => none

/-- The connections that the factory handed out. -/
def dialedConns (t : Trace) : List ConnId :=
  t.filterMap fun ev =>
    match ev with
    | .dialed _ conn => some conn
    | _ => none

/-- How many times `Close` was called on a connection. -/
def closeCount (conn : ConnId) (t : Trace) : Nat :=
  t.count (.close conn)

/-- Whether an event is a search, modify or password-modify request. -/
def Event.isRequest : Event → Bool
  | .search _ _ _ => true
  | .modify _ _ _ => true
  | .passwordModify _ _ _ => true
  | _ => false

/-- Whether an event is a search, modify or password-modify request on the given connection. -/
def Event.isRequestOn (conn : ConnId) : Event → Bool
  | .search c _ _ => c = conn
  | .modify c _ _ => c = conn
  | .passwordModify c _ _ => c = conn
  | _ => false

/-- Whether an event is a `Modify` call, on any connection. -/
def Event.isModify : Event → Bool
  | .modify _ _ _ => true
  | _ => false

/-- The search requests issued, in order. -/
def searchRequests (t : Trace) : List SearchRequest :=
  t.filterMap fun ev =>
    match ev with
    | .search _ req _ => some req
    | _ => none

/-- The entry lists of the searches that succeeded, in order. -/
def searchAnswers (t : Trace) : List (List Entry) :=
  t.filterMap fun ev =>
    match ev with
    | .search _ _ (.ok result) => some result.Entries
    | _ => none

/-- The merge of one referral answer as the spec words it: every record of the answer whose
identity handle (DN) is not yet among those of the records present is added at the end. -/
def mergeAbsent (present answer : List Entry) : List Entry :=
  answer.foldl (fun acc e => if e.DN ∈ acc.map Entry.DN then acc else acc ++ [e]) present

/-- The entries of the result that a call of `search` returned, if it returned a result. -/
def returnedEntries : Outcome (Option SearchResult × Option GoError) → Option (List Entry)
  | .ret (some searchResult, _) => some searchResult.Entries
  | _ => none

/-- The classification that `CheckUserPassword` gives to a failed user bind (line 103): the
error is the wrapper with the format `authentication failed. Cause: %w`. -/
def isAuthenticationFailed : GoError → Bool
  | .errorfW format _ _ => format = "authentication failed. Cause: %w"
  | _ => false

/-! ## A concrete directory, used to instantiate the statements below -/

/-- Externals of the example: the conventional names, identity escaping, and a referral
carried by the error with result code 10. -/
def exampleExternals : Externals where
  ldapGetReferral := fun err => if err = .ext 10 then some "ldap://replica.example.com" else none
  ldapEscape := id
  EscapeFilter := id
  ldapPlaceholderInput := "{input}"
  ldapPlaceholderUsername := "{username}"
  ldapPlaceholderDistinguishedName := "{dn}"
  ldapAttributeUnicodePwd := "unicodePwd"
  ldapAttributeUserPassword := "userPassword"
  LDAPImplementationActiveDirectory := "activedirectory"

/-- Provider of the example, by referral permission, extended-operation support and
implementation kind. -/
def exampleProvider (permitReferrals supportExtensionPasswdModify : Bool)
    (implementation : String) : LDAPUserProvider where
  config :=
    { Implementation := implementation
      URL := "ldap://directory.example.com"
      StartTLS := false
      UsersFilter := "(uid={input})"
      UsernameAttribute := "uid"
      MailAttribute := "mail"
      DisplayNameAttribute := "displayName"
      GroupsFilter := "(member={dn})"
      PermitReferrals := permitReferrals
      User := "cn=admin,dc=example,dc=com"
      Password := "service-secret" }
  disableResetPassword := false
  supportExtensionPasswdModify := supportExtensionPasswdModify
  usersBaseDN := "ou=users,dc=example,dc=com"
  usersAttributes := ["uid", "mail", "displayName"]
  usersFilterReplacementInput := true
  groupsBaseDN := "ou=groups,dc=example,dc=com"
  groupsAttributes := ["cn"]
  groupsFilterReplacementInput := false
  groupsFilterReplacementUsername := false
  groupsFilterReplacementDN := true

/-- The record of user alice in the example directory. -/
def aliceEntry : Entry :=
  { DN := "uid=alice,ou=users,dc=example,dc=com",
    Attributes := [EntryAttribute.mk "uid" ["alice"],
                   EntryAttribute.mk "mail" ["alice@example.com"]] }

/-- A second record of the example directory. -/
def bobEntry : Entry :=
  { DN := "uid=bob,ou=users,dc=example,dc=com",
    Attributes := [EntryAttribute.mk "uid" ["bob"]] }

/-- Directory of the example: the address `unreachable` cannot be dialled, a bind with the
password `rejected` fails with invalid credentials, the first connection answers searches with
`first` and every later connection with `later`, and writes are answered by `write`. -/
def exampleEnv (unreachable rejected : String) (first later : SearchResponse)
    (write : ConnId → Option GoError) : Env where
  DialURL := fun _ url => if url = unreachable then some (.ext 200) else none
  StartTLS := fun _ _ => none
  Bind := fun _ _ _ password => if password = rejected then some (.ext 49) else none
  Search := fun _ conn _ => if conn = 0 then first else later
  Modify := fun _ conn _ => write conn
  PasswordModify := fun _ conn _ => write conn

/-- A search request of the example. -/
def exampleRequest : SearchRequest :=
  getUserProfileSearchRequest exampleExternals (exampleProvider true false "custom") "alice"

/-- Directory of the example in which alice exists, no referral is returned, every write
succeeds and the password `wrong` is rejected. -/
def exampleDirectory : Env :=
  exampleEnv "" "wrong" (.ok { Entries := [aliceEntry], Referrals := [] })
    (.ok { Entries := [], Referrals := [] }) fun _ => none

/-- The profile that `getUserProfile` resolves for alice in the example directory. -/
def aliceProfile : ldapUserProfile :=
  { DN := "uid=alice,ou=users,dc=example,dc=com", Emails := ["alice@example.com"],
    DisplayName := "", Username := "alice" }

/-- History of the example after the service account has connected. -/
def exampleConnected : Trace :=
  [.dialed "ldap://directory.example.com" 0,
   .bind 0 "cn=admin,dc=example,dc=com" "service-secret" none]

/-- History of the example after the profile of alice has been resolved. -/
def exampleResolved : Trace :=
  exampleConnected ++
    [.search 0 exampleRequest (.ok { Entries := [aliceEntry], Referrals := [] })]

/-! ## Escaping and substitution -/

/-- The lower-case hexadecimal digit of a number below sixteen. -/
def hexDigit (n : Nat) : Char :=
  "0123456789abcdef".data.getD n '0'

/-- The escape sequence of the LDAP filter syntax for one byte: a backslash and the two
hexadecimal digits of the byte. -/
def filterEscapeByte (b : Nat) : List Char :=
  [Char.ofNat 92, hexDigit (b / 16), hexDigit (b % 16)]

/-- The characters that the spec lists as query metacharacters: backslash, asterisk, the two
parentheses and NUL. -/
def isFilterMetacharacter (c : Char) : Bool :=
  c = Char.ofNat 92 || c = '*' || c = '(' || c = ')' || c = Char.ofNat 0

/-- Modelled from the spec: `ldapEscape` is declared in a file of the package that is not among
the listed sources.  The spec: "Every substituted value must be escaped per directory-query
escaping rules before insertion (escape backslash, parentheses, asterisk, NUL ...)".  Each of
these five characters is written as its escape sequence of the filter syntax, every other
character is kept. -/
def ldapEscape (inputUsername : String) : String :=
  String.mk
    (inputUsername.data.map fun c =>
      if isFilterMetacharacter c then filterEscapeByte c.toNat else [c]).flatten

/-- Go `ldap.EscapeFilter` of the LDAP library: every byte that is a filter metacharacter or is
above `0x7f` is written as its escape sequence, every other byte is kept.  A character above
`0x7f` is the sequence of its UTF-8 bytes. -/
def EscapeFilter (filter : String) : String :=
  String.mk
    (filter.data.map fun c =>
      if 0x7f < c.toNat then ((utf8EncodeRune c.toNat).map filterEscapeByte).flatten
      else if isFilterMetacharacter c then filterEscapeByte c.toNat
      else [c]).flatten

/-- Whether two characters are the hexadecimal digits of one of the five metacharacters. -/
def isMetacharacterCode (a b : Char) : Bool :=
  [a, b] = ['5', 'c'] || [a, b] = ['2', 'a'] || [a, b] = ['2', '8'] || [a, b] = ['2', '9']
    || [a, b] = ['0', '0']

/-- Whether a text holds the metacharacters in escaped form only: every backslash starts the
escape sequence of a metacharacter, and no asterisk, parenthesis or NUL stands elsewhere. -/
def escapedOnly : List Char → Bool
  | [] => true
  | c :: rest =>
    if c = Char.ofNat 92 then
      match rest with
      | a :: b :: rest2 => isMetacharacterCode a b && escapedOnly rest2
      | _ => false
    else !isFilterMetacharacter c && escapedOnly rest

/-- Reading back an escaped text: every escape sequence of a metacharacter is replaced by the
character it stands for; `none` when a backslash starts no such sequence. -/
def unescapeFilter : List Char → Option (List Char)
  | [] => some []
  | c :: rest =>
    if c = Char.ofNat 92 then
      match rest with
      | a :: b :: rest2 =>
        if [a, b] = ['5', 'c'] then (unescapeFilter rest2).map (Char.ofNat 92 :: ·)
        else if [a, b] = ['2', 'a'] then (unescapeFilter rest2).map ('*' :: ·)
        else if [a, b] = ['2', '8'] then (unescapeFilter rest2).map ('(' :: ·)
        else if [a, b] = ['2', '9'] then (unescapeFilter rest2).map (')' :: ·)
        else if [a, b] = ['0', '0'] then (unescapeFilter rest2).map (Char.ofNat 0 :: ·)
        else none
      | _ => none
    else (unescapeFilter rest).map (c :: ·)

/-- The three placeholders of a filter template. -/
inductive Placeholder where
  | input
  | username
  | dn
  deriving DecidableEq, Repr

/-- A piece of a template: a character other than an opening brace, or a placeholder. -/
inductive TemplatePiece where
  | text (c : Char)
  | hole (ph : Placeholder)
  deriving DecidableEq, Repr

/-- The text of a template given piece by piece, each placeholder written as `value` says. -/
def renderTemplate (value : Placeholder → List Char) : List TemplatePiece → List Char
  | [] => []
  | .text c :: rest => c :: renderTemplate value rest
  | .hole ph :: rest => value ph ++ renderTemplate value rest

/-- The text of the placeholders as the spec names them. -/
def placeholderText : Placeholder → List Char
  | .input => "{input}".data
  | .username => "{username}".data
  | .dn => "{dn}".data

/-- Worker of `substitutePlaceholders`: the first argument counts the characters of a
placeholder that are still to be skipped. -/
def substitutePlaceholdersAux (value : Placeholder → List Char) : Nat → List Char → List Char
  | _, [] => []
  | k + 1, _ :: cs => substitutePlaceholdersAux value k cs
  | 0, c :: cs =>
    if (placeholderText .input).isPrefixOf (c :: cs) then
      value .input ++ substitutePlaceholdersAux value ((placeholderText .input).length - 1) cs
    else if (placeholderText .username).isPrefixOf (c :: cs) then
      value .username
        ++ substitutePlaceholdersAux value ((placeholderText .username).length - 1) cs
    else if (placeholderText .dn).isPrefixOf (c :: cs) then
      value .dn ++ substitutePlaceholdersAux value ((placeholderText .dn).length - 1) cs
    else c :: substitutePlaceholdersAux value 0 cs

/-- The template with each occurrence of a placeholder in the template replaced by its value,
in one pass over the template: text that a value brings in is not looked at again. -/
def substitutePlaceholders (value : Placeholder → List Char) (template : String) : String :=
  String.mk (substitutePlaceholdersAux value 0 template.data)

/-- The group list as the spec words it: over the longest initial run of records that have at
least one attribute, the values of the first attribute of each record, in order. -/
def flattenedGroups (entries : List Entry) : List String :=
  ((entries.takeWhile fun res => !res.Attributes.isEmpty).map fun res =>
    match res.Attributes with
    | [] => []
    | attr :: _ => attr.Values).flatten

/-! ## More of the concrete directory -/

/-- Externals of the example with the escaping functions in place of the identity. -/
def escapingExternals : Externals :=
  { exampleExternals with ldapEscape := ldapEscape, EscapeFilter := EscapeFilter }

/-- A record without the username attribute `uid`. -/
def carolEntry : Entry :=
  { DN := "cn=carol,ou=users,dc=example,dc=com",
    Attributes := [EntryAttribute.mk "mail" ["carol@example.com"]] }

/-- A record whose display-name attribute is present and has no value. -/
def daveEntry : Entry :=
  { DN := "uid=dave,ou=users,dc=example,dc=com",
    Attributes := [EntryAttribute.mk "uid" ["dave"], EntryAttribute.mk "displayName" []] }

/-- A record whose username attribute is present and has no value. -/
def erinEntry : Entry :=
  { DN := "uid=erin,ou=users,dc=example,dc=com",
    Attributes := [EntryAttribute.mk "uid" []] }

/-- Directory of the example that answers every search with the one given record. -/
def oneRecordDirectory (entry : Entry) : Env :=
  exampleEnv "" "wrong" (.ok { Entries := [entry], Referrals := [] })
    (.ok { Entries := [], Referrals := [] }) fun _ => none

/-- The group records of the example: two groups, a record without attributes, a last group. -/
def exampleGroupEntries : List Entry :=
  [{ DN := "cn=admins,ou=groups,dc=example,dc=com",
     Attributes := [EntryAttribute.mk "cn" ["admins", "staff"]] },
   { DN := "cn=staff,ou=groups,dc=example,dc=com",
     Attributes := [EntryAttribute.mk "cn" ["staff"], EntryAttribute.mk "ou" ["hidden"]] },
   { DN := "cn=broken,ou=groups,dc=example,dc=com", Attributes := [] },
   { DN := "cn=late,ou=groups,dc=example,dc=com",
     Attributes := [EntryAttribute.mk "cn" ["late"]] }]

/-- Directory of the example that answers a search under the groups base with the group
records and every other search with the record of alice. -/
def groupsDirectory : Env where
  DialURL := fun _ _ => none
  StartTLS := fun _ _ => none
  Bind := fun _ _ _ _ => none
  Search := fun _ _ req =>
    if req.BaseDN = "ou=groups,dc=example,dc=com" then
      .ok { Entries := exampleGroupEntries, Referrals := [] }
    else .ok { Entries := [aliceEntry], Referrals := [] }
  Modify := fun _ _ _ => none
  PasswordModify := fun _ _ _ => none

/-- A provider whose groups filter holds the placeholders `{dn}` and `{input}`. -/
def memberProvider : LDAPUserProvider :=
  { exampleProvider false false "custom" with
    config := { (exampleProvider false false "custom").config with
                GroupsFilter := "(&(member={dn})(uid={input}))" }
    groupsFilterReplacementInput := true
    groupsFilterReplacementUsername := false
    groupsFilterReplacementDN := true }

/-- The value that the claim on `resolveGroupsFilter` gives to each placeholder: the escaped raw
input, the escaped profile username and the escaped profile DN; with no profile the
placeholders `{username}` and `{dn}` stand for themselves. -/
def groupsFilterValue (x : Externals) (inputUsername : String) (profile : Option ldapUserProfile) :
    Placeholder → List Char
  | .input => (x.ldapEscape inputUsername).data
  | .username =>
    match profile with
    | some prof => (x.EscapeFilter prof.Username).data
    | none => placeholderText .username
  | .dn =>
    match profile with
    | some prof => (x.EscapeFilter prof.DN).data
    | none => placeholderText .dn

/-- The groups filter of `memberProvider` piece by piece. -/
def memberPieces : List TemplatePiece :=
  "(&(member=".data.map .text ++ [.hole .dn] ++ ")(uid=".data.map .text ++ [.hole .input]
    ++ "))".data.map .text

/-- A provider whose groups filter holds the placeholders `{dn}` and `{username}`. -/
def usernameProvider : LDAPUserProvider :=
  { exampleProvider false false "custom" with
    config := { (exampleProvider false false "custom").config with
                GroupsFilter := "(&(member={dn})(cn={username}))" }
    groupsFilterReplacementInput := false
    groupsFilterReplacementUsername := true
    groupsFilterReplacementDN := true }

/-- A profile whose username is the text `{dn}`. -/
def bracedProfile : ldapUserProfile :=
  { DN := "uid=eve,ou=users,dc=example,dc=com", Emails := [], DisplayName := "",
    Username := "{dn}" }

/-! ## Referral visits, read off the directory -/

/-- What the visit of one referral target is, in terms of the directory alone: the address is
dialled; StartTLS is called when configured; the service account binds; when all of this
succeeds the identical request is searched on the connection just dialled, which is then closed.
The answer is the entry list of that search when it succeeds; an unreachable target (failed
dial, StartTLS or bind) or a failed search gives no answer. -/
def referralVisit (p : LDAPUserProvider) (env : Env) (req : SearchRequest) (referral : String)
    (t : Trace) : Option (List Entry) × Trace :=
  match env.DialURL t referral with
  | some err => (none, t ++ [.dialFailed referral err])
  | none =>
    let t1 := t ++ [.dialed referral t.length]
    let tls := if p.config.StartTLS then env.StartTLS t1 t.length else none
    let t2 := if p.config.StartTLS then t1 ++ [.startTLS t.length tls] else t1
    match tls with
    | some _ => (none, t2)
    | none =>
      let bound := env.Bind t2 t.length p.config.User p.config.Password
      let t3 := t2 ++ [.bind t.length p.config.User p.config.Password bound]
      match bound with
      | some _ => (none, t3)
      | none =>
        let answer := env.Search t3 t.length req
        let t4 := t3 ++ [.search t.length req answer, .close t.length]
        match answer with
        | .ok result => (some result.Entries, t4)
        | .fail _ _ => (none, t4)

/-- The answers of the referral targets that gave one, visited in list order, each visit
starting from the history that the one before left. -/
def referralAnswers (p : LDAPUserProvider) (env : Env) (req : SearchRequest) :
    List String → Trace → List (List Entry) × Trace
  | [], t => ([], t)
  | referral :: rest, t =>
    match referralVisit p env req referral t with
    | (some answer, t1) =>
      (answer :: (referralAnswers p env req rest t1).1, (referralAnswers p env req rest t1).2)
    | (none, t1) => referralAnswers p env req rest t1

/-- The record that a replica holds for alice: the DN of `aliceEntry`, other attributes. -/
def aliceReplicaEntry : Entry :=
  { DN := "uid=alice,ou=users,dc=example,dc=com",
    Attributes := [EntryAttribute.mk "uid" ["alice"],
                   EntryAttribute.mk "mail" ["alice@replica.example.com"]] }

/-! ## Reading byte values back -/

/-- Whether a byte is a continuation byte of UTF-8: the bit pattern `10xxxxxx`. -/
def isContinuationByte (b : Nat) : Bool :=
  decide (0x80 ≤ b ∧ b < 0xC0)

/-- Whether a number is a Unicode scalar value: at most U+10FFFF and no surrogate. -/
def isScalarValue (r : Nat) : Bool :=
  decide (r < 0xD800 ∨ (0xDFFF < r ∧ r < 0x110000))

/-- Worker of `utf8Decode`: `need` continuation bytes are still expected for the scalar value
being read, `acc` holds the bits read so far, and `low` is the least value that the form being
read may spell. -/
def utf8DecodeFrom : Nat → Nat → Nat → List Nat → Option (List Nat)
  | 0, _, _, [] => some []
  | _ + 1, _, _, [] => none
  | 0, _, _, b :: rest =>
    if b < 0x80 then (utf8DecodeFrom 0 0 0 rest).map fun rs => b :: rs
    else if b < 0xC0 then none
    else if b < 0xE0 then utf8DecodeFrom 1 (b - 0xC0) 0x80 rest
    else if b < 0xF0 then utf8DecodeFrom 2 (b - 0xE0) 0x800 rest
    else if b < 0xF8 then utf8DecodeFrom 3 (b - 0xF0) 0x10000 rest
    else none
  | need + 1, acc, low, b :: rest =>
    if isContinuationByte b then
      if need = 0 then
        if low ≤ acc * 0x40 + (b - 0x80) ∧ isScalarValue (acc * 0x40 + (b - 0x80)) then
          (utf8DecodeFrom 0 0 0 rest).map fun rs => (acc * 0x40 + (b - 0x80)) :: rs
        else none
      else utf8DecodeFrom need (acc * 0x40 + (b - 0x80)) low rest
    else none

/-- The scalar values that a byte sequence spells in UTF-8 (RFC 3629), `none` when the sequence
is not well-formed: a lead byte `0xxxxxxx`, `110xxxxx`, `1110xxxx` or `11110xxx` is followed by
no, one, two or three continuation bytes `10xxxxxx`; the payload bits, most significant first,
are the scalar value, which must be in its shortest form. -/
def utf8Decode (bytes : List Nat) : Option (List Nat) :=
  utf8DecodeFrom 0 0 0 bytes

/-- The scalar values that a byte sequence spells in UTF-16 with little-endian byte order and
no byte-order mark (RFC 2781), `none` when the sequence is not well-formed: each code unit is
two bytes, the low byte first; a code unit outside `D800..DFFF` is a scalar value; a high
surrogate `D800..DBFF` followed by a low surrogate `DC00..DFFF` is the scalar value
`0x10000 + (high - 0xD800) * 0x400 + (low - 0xDC00)`. -/
def utf16LittleEndianDecode : List Nat → Option (List Nat)
  | [] => some []
  | [_] => none
  | lo :: hi :: rest =>
    let unit := hi * 0x100 + lo
    if unit < 0xD800 ∨ 0xDFFF < unit then
      (utf16LittleEndianDecode rest).map fun rs => unit :: rs
    else if unit < 0xDC00 then
      match rest with
      | lo2 :: hi2 :: rest2 =>
        let unit2 := hi2 * 0x100 + lo2
        if 0xDC00 ≤ unit2 ∧ unit2 ≤ 0xDFFF then
          (utf16LittleEndianDecode rest2).map fun rs =>
            (0x10000 + (unit - 0xD800) * 0x400 + (unit2 - 0xDC00)) :: rs
        else none
      | _ => none
    else none

/-- A password with one character of each length class of the two encodings: `P` (U+0050),
a-umlaut (U+00E4), the euro sign (U+20AC) and an emoji outside the basic plane (U+1F600). -/
def mixedPassword : String :=
  String.mk [Char.ofNat 0x50, Char.ofNat 0xE4, Char.ofNat 0x20AC, Char.ofNat 0x1F600]

end Authelia

namespace Authelia

/-! ## Histories only grow, and what each step adds -/

theorem connectCustom_trace (env : Env) (url userDN password : String) (startTLS : Bool)
    (t : Trace) :
    ∃ evs, (connectCustom env url userDN password startTLS t).2 = t ++ evs
      ∧ dialURLs evs = [url] ∧ evs.filter Event.isRequest = []
      ∧ searchAnswers evs = [] ∧ searchRequests evs = []
      ∧ (∀ conn, (connectCustom env url userDN password startTLS t).1 = .ok conn →
          dialedConns evs = [conn]) := by
  unfold connectCustom factoryDialURL connStartTLS connBind
  cases env.DialURL t url with
  | some e => exact ⟨[.dialFailed url e], by simp, by simp [dialURLs], by simp [Event.isRequest],
      by simp [searchAnswers], by simp [searchRequests], by simp⟩
  | none =>
    cases startTLS with
    | false =>
      cases hb : env.Bind (t ++ [.dialed url t.length]) t.length userDN password with
      | none =>
        exact ⟨[.dialed url t.length, .bind t.length userDN password none],
          by simp [hb], by simp [dialURLs], by simp [Event.isRequest],
          by simp [searchAnswers], by simp [searchRequests], by simp [hb, dialedConns]⟩
      | some e =>
        exact ⟨[.dialed url t.length, .bind t.length userDN password (some e)],
          by simp [hb], by simp [dialURLs], by simp [Event.isRequest],
          by simp [searchAnswers], by simp [searchRequests], by simp [hb]⟩
    | true =>
      cases hs : env.StartTLS (t ++ [.dialed url t.length]) t.length with
      | some e =>
        exact ⟨[.dialed url t.length, .startTLS t.length (some e)],
          by simp [hs], by simp [dialURLs], by simp [Event.isRequest],
          by simp [searchAnswers], by simp [searchRequests], by simp [hs]⟩
      | none =>
        cases hb : env.Bind (t ++ [.dialed url t.length, .startTLS t.length none]) t.length
            userDN password with
        | none =>
          exact ⟨[.dialed url t.length, .startTLS t.length none,
              .bind t.length userDN password none],
            by simp [hs, hb], by simp [dialURLs], by simp [Event.isRequest],
            by simp [searchAnswers], by simp [searchRequests], by simp [hs, hb, dialedConns]⟩
        | some e =>
          exact ⟨[.dialed url t.length, .startTLS t.length none,
              .bind t.length userDN password (some e)],
            by simp [hs, hb], by simp [dialURLs], by simp [Event.isRequest],
            by simp [searchAnswers], by simp [searchRequests], by simp [hs, hb]⟩

theorem connectCustom_ok_conn (env : Env) (url userDN password : String) (startTLS : Bool)
    (t t1 : Trace) (conn : ConnId)
    (h : connectCustom env url userDN password startTLS t = (.ok conn, t1)) :
    conn = t.length := by
  unfold connectCustom factoryDialURL at h
  cases hd : env.DialURL t url with
  | some e => simp [hd] at h
  | none =>
    simp only [hd] at h
    split at h
    · simp at h
    · split at h
      · simp at h
      · simp at h
        exact h.1.symm

theorem searchReferralMerge_eq_mergeAbsent (answer present : List Entry) :
    searchReferralMerge answer present = mergeAbsent present answer := by
  induction answer generalizing present with
  | nil => rfl
  | cons e es ih =>
    by_cases h : e.DN ∈ present.map Entry.DN
    · have hany : ldapEntriesContainsEntry e present = true := by
        obtain ⟨a, ha, hdn⟩ := List.mem_map.mp h
        exact List.any_eq_true.mpr ⟨a, ha, by simp [hdn]⟩
      have hfold : mergeAbsent present (e :: es) = mergeAbsent present es := by
        simp only [mergeAbsent, List.foldl_cons, if_pos h]
      rw [hfold]
      simp [searchReferralMerge, hany, ih]
    · have hany : ldapEntriesContainsEntry e present = false := by
        rw [Bool.eq_false_iff]
        intro hc
        obtain ⟨a, ha, hdn⟩ := List.any_eq_true.mp hc
        exact h (List.mem_map.mpr ⟨a, ha, by simpa using hdn⟩)
      have hfold : mergeAbsent present (e :: es) = mergeAbsent (present ++ [e]) es := by
        simp only [mergeAbsent, List.foldl_cons, if_neg h]
      rw [hfold]
      simp [searchReferralMerge, hany, ih]

theorem searchReferral_trace (p : LDAPUserProvider) (env : Env) (referral : String)
    (req : SearchRequest) (searchResult : Option SearchResult) (t : Trace) :
    ∃ evs, (searchReferral p env referral req searchResult t).2 = t ++ evs := by
  obtain ⟨cevs, h1, -⟩ :=
    connectCustom_trace env referral p.config.User p.config.Password p.config.StartTLS t
  rcases hcc : connectCustom env referral p.config.User p.config.Password p.config.StartTLS t
    with ⟨_ | conn, t1⟩
  · rw [hcc] at h1
    exact ⟨cevs, by simpa [searchReferral, hcc] using h1⟩
  · rw [hcc] at h1
    simp only at h1
    subst h1
    simp only [searchReferral, hcc, connSearch, connClose]
    cases env.Search (t ++ cevs) conn req with
    | fail r e => exact ⟨cevs ++ [.search conn req (.fail r e), .close conn], by simp⟩
    | ok result =>
      refine ⟨cevs ++ [.search conn req (.ok result), .close conn], ?_⟩
      simp only
      split
      · simp
      · cases searchResult <;> simp

theorem searchAnswers_append (a b : Trace) :
    searchAnswers (a ++ b) = searchAnswers a ++ searchAnswers b := by
  simp [searchAnswers]

theorem searchRequests_append (a b : Trace) :
    searchRequests (a ++ b) = searchRequests a ++ searchRequests b := by
  simp [searchRequests]

theorem dialURLs_append (a b : Trace) : dialURLs (a ++ b) = dialURLs a ++ dialURLs b := by
  simp [dialURLs]

theorem dialedConns_append (a b : Trace) :
    dialedConns (a ++ b) = dialedConns a ++ dialedConns b := by
  simp [dialedConns]

theorem searchReferral_some (p : LDAPUserProvider) (env : Env) (referral : String)
    (req : SearchRequest) (sr : SearchResult) (t : Trace) :
    ∃ sr1 err evs, searchReferral p env referral req (some sr) t = (.ret (some sr1, err), t ++ evs)
      ∧ sr1.Referrals = sr.Referrals
      ∧ sr1.Entries = (searchAnswers evs).foldl mergeAbsent sr.Entries
      ∧ dialURLs evs = [referral]
      ∧ (∀ q ∈ searchRequests evs, q = req)
      ∧ (∀ c q r, Event.search c q r ∈ evs → c ∈ dialedConns evs) := by
  obtain ⟨cevs, h1, h2, h3, h4, h5, h6⟩ :=
    connectCustom_trace env referral p.config.User p.config.Password p.config.StartTLS t
  have hnos : ∀ c q r, Event.search c q r ∈ cevs → False := by
    intro c q r hm
    have : Event.search c q r ∈ cevs.filter Event.isRequest :=
      List.mem_filter.mpr ⟨hm, rfl⟩
    rw [h3] at this
    exact List.not_mem_nil _ this
  rcases hcc : connectCustom env referral p.config.User p.config.Password p.config.StartTLS t
    with ⟨err | conn, t1⟩
  · rw [hcc] at h1
    simp only at h1
    subst h1
    exact ⟨sr, some err, cevs, by simp [searchReferral, hcc], rfl, by simp [h4], h2,
      by simp [h5], fun c q r hm => (hnos c q r hm).elim⟩
  · rw [hcc] at h1 h6
    simp only at h1
    subst h1
    have hd : dialedConns cevs = [conn] := h6 conn rfl
    have hlink : ∀ (res : SearchResponse) (c : ConnId) (q : SearchRequest) (r : SearchResponse),
        Event.search c q r ∈ cevs ++ [.search conn req res, .close conn] →
        c ∈ dialedConns (cevs ++ [.search conn req res, .close conn]) := by
      intro res c q r hm
      rw [dialedConns_append, hd]
      rcases List.mem_append.mp hm with hm | hm
      · exact (hnos c q r hm).elim
      · simp at hm
        simp [hm.1]
    simp only [searchReferral, hcc, connSearch, connClose]
    cases env.Search (t ++ cevs) conn req with
    | fail r e =>
      refine ⟨sr, some e, cevs ++ [.search conn req (.fail r e), .close conn], by simp, rfl,
        ?_, ?_, ?_, hlink _⟩
      · rw [searchAnswers_append, h4]; simp [searchAnswers]
      · rw [dialURLs_append, h2]; simp [dialURLs]
      · rw [searchRequests_append, h5]; simp [searchRequests]
    | ok result =>
      by_cases hlen : result.Entries.length = 0
      · refine ⟨sr, none, cevs ++ [.search conn req (.ok result), .close conn], by simp [hlen],
          rfl, ?_, ?_, ?_, hlink _⟩
        · have : result.Entries = [] := List.length_eq_zero.mp hlen
          rw [searchAnswers_append, h4]; simp [searchAnswers, this, mergeAbsent]
        · rw [dialURLs_append, h2]; simp [dialURLs]
        · rw [searchRequests_append, h5]; simp [searchRequests]
      · refine ⟨{ sr with Entries := searchReferralMerge result.Entries sr.Entries }, none,
          cevs ++ [.search conn req (.ok result), .close conn], by simp [hlen], rfl, ?_, ?_, ?_,
          hlink _⟩
        · rw [searchAnswers_append, h4]
          simp [searchAnswers, searchReferralMerge_eq_mergeAbsent]
        · rw [dialURLs_append, h2]; simp [dialURLs]
        · rw [searchRequests_append, h5]; simp [searchRequests]

theorem searchReferrals_some (p : LDAPUserProvider) (env : Env) (req : SearchRequest)
    (referrals : List String) (sr : SearchResult) (t : Trace) :
    ∃ sr1 evs, searchReferrals p env req referrals (some sr) t = (.ret (some sr1), t ++ evs)
      ∧ sr1.Referrals = sr.Referrals
      ∧ sr1.Entries = (searchAnswers evs).foldl mergeAbsent sr.Entries
      ∧ dialURLs evs = referrals
      ∧ (∀ q ∈ searchRequests evs, q = req)
      ∧ (∀ c q r, Event.search c q r ∈ evs → c ∈ dialedConns evs) := by
  induction referrals generalizing sr t with
  | nil =>
    exact ⟨sr, [], by simp [searchReferrals], rfl, by simp [searchAnswers],
      by simp [dialURLs], by simp [searchRequests], by simp⟩
  | cons referral rest ih =>
    obtain ⟨sr1, err, evs1, e1, r1, a1, d1, q1, l1⟩ :=
      searchReferral_some p env referral req sr t
    obtain ⟨sr2, evs2, e2, r2, a2, d2, q2, l2⟩ := ih sr1 (t ++ evs1)
    refine ⟨sr2, evs1 ++ evs2, ?_, r2.trans r1, ?_, ?_, ?_, ?_⟩
    · simp [searchReferrals, e1, e2]
    · rw [searchAnswers_append, List.foldl_append, ← a1, a2]
    · rw [dialURLs_append, d1, d2]; rfl
    · intro q hq
      rw [searchRequests_append, List.mem_append] at hq
      exact hq.elim (q1 q) (q2 q)
    · intro c q r hm
      rw [dialedConns_append, List.mem_append]
      rcases List.mem_append.mp hm with hm | hm
      · exact Or.inl (l1 c q r hm)
      · exact Or.inr (l2 c q r hm)

theorem searchReferrals_trace (p : LDAPUserProvider) (env : Env) (req : SearchRequest)
    (referrals : List String) (searchResult : Option SearchResult) (t : Trace) :
    ∃ evs, (searchReferrals p env req referrals searchResult t).2 = t ++ evs := by
  induction referrals generalizing searchResult t with
  | nil => exact ⟨[], by simp [searchReferrals]⟩
  | cons referral rest ih =>
    obtain ⟨evs1, h1⟩ := searchReferral_trace p env referral req searchResult t
    rcases hr : searchReferral p env referral req searchResult t with ⟨⟨sr1, err⟩ | msg, t1⟩
    · rw [hr] at h1
      simp only at h1
      subst h1
      obtain ⟨evs2, h2⟩ := ih sr1 (t ++ evs1)
      exact ⟨evs1 ++ evs2, by simp [searchReferrals, hr, h2]⟩
    · rw [hr] at h1
      exact ⟨evs1, by simpa [searchReferrals, hr] using h1⟩

theorem search_trace (x : Externals) (p : LDAPUserProvider) (env : Env) (conn : ConnId)
    (req : SearchRequest) (t : Trace) :
    ∃ evs, (search x p env conn req t).2 = t ++ .search conn req (env.Search t conn req) :: evs := by
  simp only [search, connSearch]
  cases env.Search t conn req with
  | fail r err =>
    simp only
    cases getReferral x p err with
    | none => exact ⟨[], by simp⟩
    | some referral =>
      obtain ⟨evs1, h1⟩ := searchReferral_trace p env referral req r
        (t ++ [.search conn req (.fail r err)])
      simp only
      rcases hr : searchReferral p env referral req r (t ++ [.search conn req (.fail r err)])
        with ⟨⟨sr1, _ | e⟩ | msg, t1⟩ <;>
      · rw [hr] at h1
        exact ⟨evs1, by simpa [hr] using h1⟩
  | ok result =>
    simp only
    split
    · exact ⟨[], by simp⟩
    · obtain ⟨evs1, h1⟩ := searchReferrals_trace p env req result.Referrals (some result)
        (t ++ [.search conn req (.ok result)])
      rcases hr : searchReferrals p env req result.Referrals (some result)
        (t ++ [.search conn req (.ok result)]) with ⟨sr1 | msg, t1⟩ <;>
      · rw [hr] at h1
        exact ⟨evs1, by simpa [hr] using h1⟩

theorem getUserProfile_snd (x : Externals) (p : LDAPUserProvider) (env : Env) (conn : ConnId)
    (inputUsername : String) (t : Trace) :
    (getUserProfile x p env conn inputUsername t).2
      = (search x p env conn (getUserProfileSearchRequest x p inputUsername) t).2 := by
  unfold getUserProfile
  split
  · simp [*]
  · simp [*]
  · simp [*]
  · rename_i heq
    rw [heq]
    simp only
    split
    · rfl
    · rfl
    · split
      · rfl
      · rfl
      · split <;> rfl

theorem getUserProfile_trace (x : Externals) (p : LDAPUserProvider) (env : Env) (conn : ConnId)
    (inputUsername : String) (t : Trace) :
    ∃ evs, (getUserProfile x p env conn inputUsername t).2 = t ++ evs := by
  obtain ⟨evs, h⟩ := search_trace x p env conn (getUserProfileSearchRequest x p inputUsername) t
  exact ⟨_, (getUserProfile_snd x p env conn inputUsername t).trans h⟩

/-! ## The merge adds each absent record once -/

theorem mergeAbsent_cons_present (present : List Entry) (e : Entry) (es : List Entry)
    (h : e.DN ∈ present.map Entry.DN) : mergeAbsent present (e :: es) = mergeAbsent present es := by
  simp only [mergeAbsent, List.foldl_cons, if_pos h]

theorem mergeAbsent_cons_absent (present : List Entry) (e : Entry) (es : List Entry)
    (h : e.DN ∉ present.map Entry.DN) :
    mergeAbsent present (e :: es) = mergeAbsent (present ++ [e]) es := by
  simp only [mergeAbsent, List.foldl_cons, if_neg h]

theorem mergeAbsent_spec (present answer : List Entry) :
    ∃ added, mergeAbsent present answer = present ++ added
      ∧ added.Sublist answer
      ∧ (added.map Entry.DN).Nodup
      ∧ (∀ e ∈ added, e.DN ∉ present.map Entry.DN)
      ∧ (∀ e ∈ answer, e.DN ∈ (present ++ added).map Entry.DN) := by
  induction answer generalizing present with
  | nil => exact ⟨[], by simp [mergeAbsent]⟩
  | cons e es ih =>
    by_cases h : e.DN ∈ present.map Entry.DN
    · obtain ⟨added, h1, h2, h3, h4, h5⟩ := ih present
      refine ⟨added, ?_, h2.cons e, h3, h4, ?_⟩
      · rw [mergeAbsent_cons_present present e es h, h1]
      · intro a ha
        rcases List.mem_cons.mp ha with rfl | ha
        · rw [List.map_append]
          exact List.mem_append_left _ h
        · exact h5 a ha
    · obtain ⟨added, h1, h2, h3, h4, h5⟩ := ih (present ++ [e])
      refine ⟨e :: added, ?_, h2.cons₂ e, ?_, ?_, ?_⟩
      · rw [mergeAbsent_cons_absent present e es h, h1]
        simp
      · rw [List.map_cons]
        refine List.nodup_cons.mpr ⟨?_, h3⟩
        intro he
        obtain ⟨a, ha, hdn⟩ := List.mem_map.mp he
        exact h4 a ha (by rw [hdn]; simp)
      · intro a ha
        rcases List.mem_cons.mp ha with rfl | ha
        · exact h
        · intro hp
          exact h4 a ha (by rw [List.map_append]; exact List.mem_append_left _ hp)
      · intro a ha
        rcases List.mem_cons.mp ha with rfl | ha
        · simp
        · have := h5 a ha
          simpa using this

theorem foldl_mergeAbsent_spec (answers : List (List Entry)) (present : List Entry) :
    ∃ added, answers.foldl mergeAbsent present = present ++ added
      ∧ added.Sublist answers.flatten
      ∧ (added.map Entry.DN).Nodup
      ∧ (∀ e ∈ added, e.DN ∉ present.map Entry.DN)
      ∧ (∀ answer ∈ answers, ∀ e ∈ answer, e.DN ∈ (present ++ added).map Entry.DN) := by
  induction answers generalizing present with
  | nil => exact ⟨[], by simp⟩
  | cons a rest ih =>
    obtain ⟨add1, e1, s1, n1, m1, c1⟩ := mergeAbsent_spec present a
    obtain ⟨add2, e2, s2, n2, m2, c2⟩ := ih (present ++ add1)
    refine ⟨add1 ++ add2, ?_, ?_, ?_, ?_, ?_⟩
    · simp [List.foldl_cons, e1, e2]
    · rw [List.flatten_cons]
      exact s1.append s2
    · rw [List.map_append]
      refine List.nodup_append.mpr ⟨n1, n2, ?_⟩
      intro d hd1 hd2
      obtain ⟨b, hb, hdn⟩ := List.mem_map.mp hd2
      exact m2 b hb (by rw [hdn, List.map_append]; exact List.mem_append_right _ hd1)
    · intro e he
      rcases List.mem_append.mp he with he | he
      · exact m1 e he
      · intro hp
        exact m2 e he (by rw [List.map_append]; exact List.mem_append_left _ hp)
    · intro b hb e he
      rcases List.mem_cons.mp hb with rfl | hb
      · have := c1 e he
        rw [← List.append_assoc, List.map_append]
        exact List.mem_append_left _ this
      · have := c2 b hb e he
        rwa [List.append_assoc] at this

/-- The three ways in which a call of `CheckUserPassword` ends, whatever the username, the
password, the configuration and the behaviour of the factory and of its connections: it returns
`(true, nil)`, or it returns `(false, err)` with `err` non-nil, or `getUserProfile` panics and
the call returns nothing. -/
theorem CheckUserPassword_outcomes (x : Externals) (p : LDAPUserProvider) (env : Env)
    (inputUsername password : String) (t : Trace) :
    (CheckUserPassword x p env inputUsername password t).1 = .ret (true, none)
    ∨ (∃ err, (CheckUserPassword x p env inputUsername password t).1 = .ret (false, some err))
    ∨ (∃ msg conn t1, connect p env t = (.ok conn, t1)
        ∧ (getUserProfile x p env conn inputUsername t1).1 = .panicked msg
        ∧ (CheckUserPassword x p env inputUsername password t).1 = .panicked msg) := by
  rcases hc : connect p env t with ⟨_ | conn, t1⟩
  · right; left; simp [CheckUserPassword, hc]
  · rcases hp : getUserProfile x p env conn inputUsername t1 with ⟨⟨err | profile⟩ | msg, t2⟩
    · right; left; simp [CheckUserPassword, hc, hp]
    · rcases hu : connectCustom env p.config.URL profile.DN password p.config.StartTLS t2
        with ⟨_ | connUser, t3⟩
      · right; left; simp [CheckUserPassword, hc, hp, hu]
      · left; simp [CheckUserPassword, hc, hp, hu]
    · right; right
      exact ⟨msg, conn, t1, rfl, by simp [hp], by simp [CheckUserPassword, hc, hp]⟩

/-- C4: for every request, referral-permission setting and behaviour of the primary connection
and of the referral target, `modify` and `pwdModify` return exactly what the primary `Modify`
or `PasswordModify` returned: nil when it succeeded, its error otherwise, whether the referral
connection or the referral retry failed or succeeded. -/
theorem modify_returns_primary_outcome (x : Externals) (p : LDAPUserProvider) (env : Env)
    (conn : ConnId) (modifyRequest : ModifyRequest) (pwdModifyRequest : PasswordModifyRequest)
    (t : Trace) :
    (modify x p env conn modifyRequest t).1 = env.Modify t conn modifyRequest
    ∧ (pwdModify x p env conn pwdModifyRequest t).1 = env.PasswordModify t conn pwdModifyRequest := by
  constructor
  · unfold modify connModify
    cases env.Modify t conn modifyRequest with
    | none => rfl
    | some err =>
      simp only
      split
      · rfl
      · split <;> rfl
  · unfold pwdModify connPasswordModify
    cases env.PasswordModify t conn pwdModifyRequest with
    | none => rfl
    | some err =>
      simp only
      split
      · rfl
      · split <;> rfl

/-! ## Reads and referrals -/

/-- C5: with `PermitReferrals` false, `search` returns exactly the outcome of the primary
connection (the same result, referral list included, or the same error with no result), the
only call it makes is the one `Search` on the primary connection, so it dials nothing, and the
entries returned for a response carrying referral targets are those returned for the same
response without referrals. -/
theorem search_referrals_not_permitted (x : Externals) (p : LDAPUserProvider) (env : Env)
    (conn : ConnId) (req : SearchRequest) (t : Trace)
    (hperm : p.config.PermitReferrals = false) :
    search x p env conn req t =
      ((match env.Search t conn req with
        | .ok result => .ret (some result, none)
        | .fail _ err => .ret (none, some err)),
       t ++ [.search conn req (env.Search t conn req)])
    ∧ dialURLs (search x p env conn req t).2 = dialURLs t
    ∧ (∀ (env2 : Env) (entries : List Entry) (referrals : List String),
        env.Search t conn req = .ok { Entries := entries, Referrals := referrals } →
        env2.Search t conn req = .ok { Entries := entries, Referrals := [] } →
        returnedEntries (search x p env conn req t).1 = some entries
        ∧ returnedEntries (search x p env2 conn req t).1 = some entries) := by
  have key : ∀ env1 : Env, search x p env1 conn req t =
      ((match env1.Search t conn req with
        | .ok result => .ret (some result, none)
        | .fail _ err => .ret (none, some err)),
       t ++ [.search conn req (env1.Search t conn req)]) := by
    intro env1
    simp only [search, connSearch, getReferral, hperm]
    cases env1.Search t conn req <;> simp
  refine ⟨key env, ?_, ?_⟩
  · rw [key env, dialURLs_append]
    simp [dialURLs]
  · intro env2 entries referrals h1 h2
    rw [key env, key env2, h1, h2]
    exact ⟨rfl, rfl⟩

/-- Instance of C5: a response carrying a referral target, referrals not permitted. -/
theorem search_referrals_not_permitted_witness :
    (exampleProvider false false "custom").config.PermitReferrals = false
    ∧ search exampleExternals (exampleProvider false false "custom")
        (exampleEnv "" "" (.ok { Entries := [aliceEntry],
                                 Referrals := ["ldap://replica.example.com"] })
          (.ok { Entries := [bobEntry], Referrals := [] }) fun _ => none)
        0 exampleRequest []
      = (.ret (some { Entries := [aliceEntry], Referrals := ["ldap://replica.example.com"] },
               none),
         [.search 0 exampleRequest
            (.ok { Entries := [aliceEntry], Referrals := ["ldap://replica.example.com"] })]) :=
  ⟨rfl, (search_referrals_not_permitted exampleExternals (exampleProvider false false "custom")
      (exampleEnv "" "" (.ok { Entries := [aliceEntry],
                               Referrals := ["ldap://replica.example.com"] })
        (.ok { Entries := [bobEntry], Referrals := [] }) fun _ => none)
      0 exampleRequest [] rfl).1⟩

/-- What `search` does when referrals are permitted and the primary search succeeds: it runs
`searchReferrals` on the referral list of the primary result. -/
theorem search_primary_ok (x : Externals) (p : LDAPUserProvider) (env : Env)
    (conn : ConnId) (req : SearchRequest) (t : Trace) (result : SearchResult)
    (hperm : p.config.PermitReferrals = true)
    (hprimary : env.Search t conn req = .ok result) :
    ∃ sr evs,
      search x p env conn req t = (.ret (some sr, none), t ++ .search conn req (.ok result) :: evs)
      ∧ sr.Entries = (searchAnswers evs).foldl mergeAbsent result.Entries
      ∧ dialURLs evs = result.Referrals
      ∧ (∀ q ∈ searchRequests evs, q = req)
      ∧ (∀ c q r, Event.search c q r ∈ evs → c ∈ dialedConns evs) := by
  obtain ⟨sr, evs, h1, -, h3, h4, h5, h6⟩ :=
    searchReferrals_some p env req result.Referrals result (t ++ [.search conn req (.ok result)])
  refine ⟨sr, evs, ?_, h3, h4, h5, h6⟩
  simp only [search, connSearch, hprimary, hperm]
  by_cases hr : result.Referrals.length = 0
  · have hnil : result.Referrals = [] := List.length_eq_zero.mp hr
    rw [hnil] at h1
    simp [searchReferrals] at h1
    obtain ⟨h1a, h1b⟩ := h1
    subst h1a
    simp [hr, ← h1b]
  · simp [hr, h1]

theorem searchReferral_eq_referralVisit (p : LDAPUserProvider) (env : Env) (referral : String)
    (req : SearchRequest) (sr : SearchResult) (t : Trace) :
    ∃ err, searchReferral p env referral req (some sr) t
      = (.ret (some { Entries := (match (referralVisit p env req referral t).1 with
                                  | some answer => mergeAbsent sr.Entries answer
                                  | none => sr.Entries),
                      Referrals := sr.Referrals }, err),
         (referralVisit p env req referral t).2) := by
  simp only [searchReferral, connectCustom, factoryDialURL, referralVisit, connStartTLS,
    connBind, connSearch, connClose]
  cases hd : env.DialURL t referral with
  | some e => exact ⟨_, rfl⟩
  | none =>
    simp only
    cases htls : p.config.StartTLS with
    | false =>
      simp only [Bool.false_eq_true, if_false]
      cases hb : env.Bind (t ++ [.dialed referral t.length]) t.length p.config.User
          p.config.Password with
      | some e => exact ⟨_, rfl⟩
      | none =>
        simp only
        cases hs : env.Search (t ++ [.dialed referral t.length] ++
            [.bind t.length p.config.User p.config.Password none]) t.length req with
        | fail r e => exact ⟨some e, by simp⟩
        | ok result =>
          by_cases hlen : result.Entries.length = 0
          · have hnil : result.Entries = [] := List.length_eq_zero.mp hlen
            exact ⟨none, by simp [hlen, hnil, mergeAbsent]⟩
          · exact ⟨none, by simp [hlen, searchReferralMerge_eq_mergeAbsent]⟩
    | true =>
      simp only [if_true]
      cases hs : env.StartTLS (t ++ [.dialed referral t.length]) t.length with
      | some e => exact ⟨_, rfl⟩
      | none =>
        simp only
        cases hb : env.Bind (t ++ [.dialed referral t.length] ++ [.startTLS t.length none])
            t.length p.config.User p.config.Password with
        | some e => exact ⟨_, rfl⟩
        | none =>
          simp only
          cases hs : env.Search (t ++ [.dialed referral t.length] ++ [.startTLS t.length none] ++
              [.bind t.length p.config.User p.config.Password none]) t.length req with
          | fail r e => exact ⟨some e, by simp⟩
          | ok result =>
            by_cases hlen : result.Entries.length = 0
            · have hnil : result.Entries = [] := List.length_eq_zero.mp hlen
              exact ⟨none, by simp [hlen, hnil, mergeAbsent]⟩
            · exact ⟨none, by simp [hlen, searchReferralMerge_eq_mergeAbsent]⟩

theorem searchReferrals_eq_referralAnswers (p : LDAPUserProvider) (env : Env)
    (req : SearchRequest) (referrals : List String) (sr : SearchResult) (t : Trace) :
    searchReferrals p env req referrals (some sr) t
      = (.ret (some { Entries := (referralAnswers p env req referrals t).1.foldl mergeAbsent
                                   sr.Entries,
                      Referrals := sr.Referrals }),
         (referralAnswers p env req referrals t).2) := by
  induction referrals generalizing sr t with
  | nil => simp [searchReferrals, referralAnswers]
  | cons referral rest ih =>
    obtain ⟨err, h⟩ := searchReferral_eq_referralVisit p env referral req sr t
    simp only [searchReferrals, h, referralAnswers]
    rcases hv : referralVisit p env req referral t with ⟨_ | answer, t1⟩
    · simp only [ih]
    · simp only [ih, List.foldl_cons]

theorem referralVisit_trace (p : LDAPUserProvider) (env : Env) (req : SearchRequest)
    (referral : String) (t : Trace) :
    ∃ evs, (referralVisit p env req referral t).2 = t ++ evs
      ∧ searchAnswers evs = (match (referralVisit p env req referral t).1 with
                             | some answer => [answer]
                             | none => []) := by
  simp only [referralVisit]
  cases hd : env.DialURL t referral with
  | some e => exact ⟨_, rfl, by simp [searchAnswers]⟩
  | none =>
    simp only
    cases htls : p.config.StartTLS with
    | false =>
      simp only [Bool.false_eq_true, if_false]
      cases hb : env.Bind (t ++ [.dialed referral t.length]) t.length p.config.User
          p.config.Password with
      | some e =>
        exact ⟨[.dialed referral t.length,
            .bind t.length p.config.User p.config.Password (some e)],
          by simp, by simp [searchAnswers]⟩
      | none =>
        simp only
        cases hs : env.Search (t ++ [.dialed referral t.length] ++
            [.bind t.length p.config.User p.config.Password none]) t.length req with
        | fail r e =>
          exact ⟨[.dialed referral t.length,
              .bind t.length p.config.User p.config.Password none,
              .search t.length req (.fail r e), .close t.length],
            by simp, by simp [searchAnswers]⟩
        | ok result =>
          exact ⟨[.dialed referral t.length,
              .bind t.length p.config.User p.config.Password none,
              .search t.length req (.ok result), .close t.length],
            by simp, by simp [searchAnswers]⟩
    | true =>
      simp only [if_true]
      cases hs : env.StartTLS (t ++ [.dialed referral t.length]) t.length with
      | some e =>
        exact ⟨[.dialed referral t.length, .startTLS t.length (some e)],
          by simp, by simp [searchAnswers]⟩
      | none =>
        simp only
        cases hb : env.Bind (t ++ [.dialed referral t.length] ++ [.startTLS t.length none])
            t.length p.config.User p.config.Password with
        | some e =>
          exact ⟨[.dialed referral t.length, .startTLS t.length none,
              .bind t.length p.config.User p.config.Password (some e)],
            by simp, by simp [searchAnswers]⟩
        | none =>
          simp only
          cases hs : env.Search (t ++ [.dialed referral t.length] ++ [.startTLS t.length none] ++
              [.bind t.length p.config.User p.config.Password none]) t.length req with
          | fail r e =>
            exact ⟨[.dialed referral t.length, .startTLS t.length none,
                .bind t.length p.config.User p.config.Password none,
                .search t.length req (.fail r e), .close t.length],
              by simp, by simp [searchAnswers]⟩
          | ok result =>
            exact ⟨[.dialed referral t.length, .startTLS t.length none,
                .bind t.length p.config.User p.config.Password none,
                .search t.length req (.ok result), .close t.length],
              by simp, by simp [searchAnswers]⟩

theorem referralAnswers_trace (p : LDAPUserProvider) (env : Env) (req : SearchRequest)
    (referrals : List String) (t : Trace) :
    ∃ evs, (referralAnswers p env req referrals t).2 = t ++ evs
      ∧ searchAnswers evs = (referralAnswers p env req referrals t).1 := by
  induction referrals generalizing t with
  | nil => exact ⟨[], by simp [referralAnswers], by simp [referralAnswers, searchAnswers]⟩
  | cons referral rest ih =>
    obtain ⟨evs1, h1, a1⟩ := referralVisit_trace p env req referral t
    rcases hv : referralVisit p env req referral t with ⟨_ | answer, t1⟩
    · rw [hv] at h1 a1
      simp only at h1 a1
      subst h1
      obtain ⟨evs2, h2, a2⟩ := ih (t ++ evs1)
      refine ⟨evs1 ++ evs2, ?_, ?_⟩
      · simp [referralAnswers, hv, h2]
      · simp [referralAnswers, hv, searchAnswers_append, a1, a2]
    · rw [hv] at h1 a1
      simp only at h1 a1
      subst h1
      obtain ⟨evs2, h2, a2⟩ := ih (t ++ evs1)
      refine ⟨evs1 ++ evs2, ?_, ?_⟩
      · simp [referralAnswers, hv, h2]
      · simp [referralAnswers, hv, searchAnswers_append, a1, a2]

/-- C6: with `PermitReferrals` true and a successful primary search, `search` succeeds and does
exactly the following, read off the directory: after the primary search it visits the referral
targets of the result in list order; on each target it dials, upgrades when configured, binds
the service account, and on a reachable target issues one `Search` with the identical request on
the connection just dialled and closes it (`referralAnswers`).  The returned entries are the
original entries followed, answer by answer in that order, by the records of each answer whose
identity handle (DN) was not yet present, and the referral list is the original one.  Hence the
original entries are an initial segment; the added records are taken in order from the referral
answers; no two added records share a DN and none has the DN of an original; every record of
every referral answer is represented, by its DN, in the result. -/
theorem search_merges_referral_entries (x : Externals) (p : LDAPUserProvider) (env : Env)
    (conn : ConnId) (req : SearchRequest) (t : Trace) (result : SearchResult)
    (hperm : p.config.PermitReferrals = true)
    (hprimary : env.Search t conn req = .ok result) :
    search x p env conn req t
      = (.ret (some { Entries :=
                        (referralAnswers p env req result.Referrals
                          (t ++ [.search conn req (.ok result)])).1.foldl mergeAbsent
                          result.Entries,
                      Referrals := result.Referrals }, none),
         (referralAnswers p env req result.Referrals (t ++ [.search conn req (.ok result)])).2)
    ∧ (∃ evs,
        (referralAnswers p env req result.Referrals (t ++ [.search conn req (.ok result)])).2
          = t ++ .search conn req (.ok result) :: evs
        ∧ dialURLs evs = result.Referrals
        ∧ (∀ q ∈ searchRequests evs, q = req)
        ∧ (∀ c q r, Event.search c q r ∈ evs → c ∈ dialedConns evs)
        ∧ searchAnswers evs
            = (referralAnswers p env req result.Referrals
                (t ++ [.search conn req (.ok result)])).1)
    ∧ (∃ added,
        (referralAnswers p env req result.Referrals
            (t ++ [.search conn req (.ok result)])).1.foldl mergeAbsent result.Entries
          = result.Entries ++ added
        ∧ added.Sublist
            (referralAnswers p env req result.Referrals
              (t ++ [.search conn req (.ok result)])).1.flatten
        ∧ (added.map Entry.DN).Nodup
        ∧ (∀ e ∈ added, e.DN ∉ result.Entries.map Entry.DN)
        ∧ (∀ answer ∈ (referralAnswers p env req result.Referrals
                        (t ++ [.search conn req (.ok result)])).1,
            ∀ e ∈ answer, e.DN ∈ (result.Entries ++ added).map Entry.DN)) := by
  have hsearch : search x p env conn req t
      = (.ret (some { Entries :=
                        (referralAnswers p env req result.Referrals
                          (t ++ [.search conn req (.ok result)])).1.foldl mergeAbsent
                          result.Entries,
                      Referrals := result.Referrals }, none),
         (referralAnswers p env req result.Referrals
            (t ++ [.search conn req (.ok result)])).2) := by
    simp only [search, connSearch, hprimary, hperm]
    by_cases hr : result.Referrals.length = 0
    · have hnil : result.Referrals = [] := List.length_eq_zero.mp hr
      obtain ⟨entries, referrals⟩ := result
      simp only at hnil
      subst hnil
      simp [referralAnswers]
    · simp [hr, searchReferrals_eq_referralAnswers]
  obtain ⟨sr, evs, h1, -, h4, h5, h6⟩ :=
    search_primary_ok x p env conn req t result hperm hprimary
  obtain ⟨evs2, t2, a2⟩ := referralAnswers_trace p env req result.Referrals
    (t ++ [.search conn req (.ok result)])
  have htrace : evs2 = evs := by
    have := congrArg Prod.snd (hsearch.symm.trans h1)
    simp only at this
    rw [t2] at this
    simpa using this
  subst htrace
  refine ⟨hsearch, ⟨evs2, ?_, h4, h5, h6, a2⟩, ?_⟩
  · rw [t2]; simp
  · exact foldl_mergeAbsent_spec _ result.Entries

/-- Instance of C6: the primary answer holds alice and one referral; the referral target is
reachable and answers with its own record of alice (same DN, another mail address) and with
bob.  The call dials the target, binds, searches with the identical request on the connection
it dialled and closes it; the merged result holds the original record of alice, then bob. -/
theorem search_merges_referral_entries_witness :
    (exampleProvider true false "custom").config.PermitReferrals = true
    ∧ (exampleEnv "" "" (.ok { Entries := [aliceEntry],
                               Referrals := ["ldap://replica.example.com"] })
          (.ok { Entries := [aliceReplicaEntry, bobEntry], Referrals := [] })
          fun _ => none).Search
        [.dialed "ldap://directory.example.com" 0] 0 exampleRequest
      = .ok { Entries := [aliceEntry], Referrals := ["ldap://replica.example.com"] }
    ∧ search exampleExternals (exampleProvider true false "custom")
        (exampleEnv "" "" (.ok { Entries := [aliceEntry],
                                 Referrals := ["ldap://replica.example.com"] })
          (.ok { Entries := [aliceReplicaEntry, bobEntry], Referrals := [] }) fun _ => none)
        0 exampleRequest [.dialed "ldap://directory.example.com" 0]
      = (.ret (some { Entries := [aliceEntry, bobEntry],
                      Referrals := ["ldap://replica.example.com"] }, none),
         [.dialed "ldap://directory.example.com" 0,
          .search 0 exampleRequest (.ok { Entries := [aliceEntry],
                                          Referrals := ["ldap://replica.example.com"] }),
          .dialed "ldap://replica.example.com" 2,
          .bind 2 "cn=admin,dc=example,dc=com" "service-secret" none,
          .search 2 exampleRequest (.ok { Entries := [aliceReplicaEntry, bobEntry],
                                          Referrals := [] }),
          .close 2]) :=
  ⟨rfl, rfl,
   (search_merges_referral_entries exampleExternals (exampleProvider true false "custom")
      (exampleEnv "" "" (.ok { Entries := [aliceEntry],
                               Referrals := ["ldap://replica.example.com"] })
        (.ok { Entries := [aliceReplicaEntry, bobEntry], Referrals := [] }) fun _ => none)
      0 exampleRequest [.dialed "ldap://directory.example.com" 0]
      { Entries := [aliceEntry], Referrals := ["ldap://replica.example.com"] } rfl rfl).1⟩

/-- C7: with `PermitReferrals` true, whatever the referral targets do (their dial, StartTLS,
bind or search may fail in any way), a call whose primary search succeeded returns a result and
a nil error, and the result starts with the primary entries; and when the primary search failed
with an error carrying a referral and the connect-and-bind to that referral fails, `search`
returns no result and the primary error itself. -/
theorem search_referral_failures (x : Externals) (p : LDAPUserProvider) (env : Env)
    (conn : ConnId) (req : SearchRequest) (t : Trace)
    (hperm : p.config.PermitReferrals = true) :
    (∀ result, env.Search t conn req = .ok result →
      ∃ sr t1, search x p env conn req t = (.ret (some sr, none), t1)
        ∧ result.Entries <+: sr.Entries)
    ∧ (∀ res err referral cause t2, env.Search t conn req = .fail res err →
        x.ldapGetReferral err = some referral →
        connectCustom env referral p.config.User p.config.Password p.config.StartTLS
          (t ++ [.search conn req (.fail res err)]) = (.error cause, t2) →
        search x p env conn req t = (.ret (none, some err), t2)) := by
  constructor
  · intro result hprimary
    obtain ⟨sr, evs, h1, h2, -⟩ := search_primary_ok x p env conn req t result hperm hprimary
    obtain ⟨added, a1, -⟩ := foldl_mergeAbsent_spec (searchAnswers evs) result.Entries
    exact ⟨sr, _, h1, added, (h2.trans a1).symm⟩
  · intro res err referral cause t2 hprimary href hconn
    simp [search, connSearch, hprimary, getReferral, hperm, href, searchReferral, hconn]

/-- Instance of C7: the primary search succeeds with a referral to an address that cannot be
dialled; and the primary search fails with a referral to an address that cannot be dialled. -/
theorem search_referral_failures_witness :
    (∃ sr t1,
      search exampleExternals (exampleProvider true false "custom")
        (exampleEnv "ldap://replica.example.com" ""
          (.ok { Entries := [aliceEntry], Referrals := ["ldap://replica.example.com"] })
          (.ok { Entries := [bobEntry], Referrals := [] }) fun _ => none)
        0 exampleRequest [] = (.ret (some sr, none), t1)
      ∧ [aliceEntry] <+: sr.Entries)
    ∧ search exampleExternals (exampleProvider true false "custom")
        (exampleEnv "ldap://replica.example.com" "" (.fail none (.ext 10))
          (.ok { Entries := [bobEntry], Referrals := [] }) fun _ => none)
        0 exampleRequest []
      = (.ret (none, some (.ext 10)),
         [.search 0 exampleRequest (.fail none (.ext 10)),
          .dialFailed "ldap://replica.example.com" (.ext 200)]) :=
  ⟨(search_referral_failures exampleExternals (exampleProvider true false "custom")
      (exampleEnv "ldap://replica.example.com" ""
        (.ok { Entries := [aliceEntry], Referrals := ["ldap://replica.example.com"] })
        (.ok { Entries := [bobEntry], Referrals := [] }) fun _ => none)
      0 exampleRequest [] rfl).1 _ rfl,
   (search_referral_failures exampleExternals (exampleProvider true false "custom")
      (exampleEnv "ldap://replica.example.com" "" (.fail none (.ext 10))
        (.ok { Entries := [bobEntry], Referrals := [] }) fun _ => none)
      0 exampleRequest [] rfl).2 none (.ext 10) "ldap://replica.example.com"
      (.errorfW "dial failed with error: %w" [] (.ext 200)) _ rfl rfl rfl⟩

/-! ## Writes -/

theorem connectCustom_no_request (env : Env) (url userDN password : String) (startTLS : Bool)
    (t : Trace) :
    ∃ evs, (connectCustom env url userDN password startTLS t).2 = t ++ evs
      ∧ (∀ conn, evs.filter (Event.isRequestOn conn) = [])
      ∧ (∀ ev ∈ evs, ev.isRequest = false) := by
  obtain ⟨cevs, h1, -, h3, -⟩ := connectCustom_trace env url userDN password startTLS t
  have hno : ∀ ev ∈ cevs, ev.isRequest = false := by
    intro ev hev
    by_contra hq
    have : ev ∈ cevs.filter Event.isRequest := List.mem_filter.mpr ⟨hev, by simpa using hq⟩
    rw [h3] at this
    exact List.not_mem_nil _ this
  refine ⟨cevs, h1, ?_, hno⟩
  intro conn
  rw [List.filter_eq_nil_iff]
  intro ev hev
  have := hno ev hev
  cases ev <;> simp_all [Event.isRequest, Event.isRequestOn]

/-- What `modify` adds to the history when the primary connection was dialled earlier: the one
`Modify` on the primary connection, then events that are no request on that connection and no
`PasswordModify`. -/
theorem modify_trace (x : Externals) (p : LDAPUserProvider) (env : Env) (conn : ConnId)
    (req : ModifyRequest) (t : Trace) (hconn : conn < t.length) :
    ∃ evs, (modify x p env conn req t).2 = t ++ .modify conn req (env.Modify t conn req) :: evs
      ∧ evs.filter (Event.isRequestOn conn) = []
      ∧ (∀ c q r, Event.passwordModify c q r ∉ evs) := by
  simp only [modify, connModify]
  cases env.Modify t conn req with
  | none => exact ⟨[], by simp⟩
  | some err =>
    simp only
    cases getReferral x p err with
    | none => exact ⟨[], by simp⟩
    | some referral =>
      obtain ⟨cevs, h1, hon, hno⟩ := connectCustom_no_request env referral p.config.User
        p.config.Password p.config.StartTLS (t ++ [.modify conn req (some err)])
      have hpw : ∀ c q r, Event.passwordModify c q r ∉ cevs := by
        intro c q r hm
        have := hno _ hm
        simp [Event.isRequest] at this
      rcases hcc : connectCustom env referral p.config.User p.config.Password p.config.StartTLS
        (t ++ [.modify conn req (some err)]) with ⟨cause | connReferral, t2⟩
      · rw [hcc] at h1
        simp only at h1
        subst h1
        exact ⟨cevs, by simp [hcc], hon conn, hpw⟩
      · have hid := connectCustom_ok_conn _ _ _ _ _ _ _ _ hcc
        rw [hcc] at h1
        simp only at h1
        subst h1
        have hne : connReferral ≠ conn := by
          rw [hid, List.length_append]
          exact Nat.ne_of_gt (Nat.lt_of_lt_of_le hconn (Nat.le_add_right _ _))
        simp only [hcc]
        refine ⟨cevs ++ [.modify connReferral req
          (env.Modify (t ++ [.modify conn req (some err)] ++ cevs) connReferral req),
          .close connReferral], by simp [connClose, connModify], ?_, ?_⟩
        · simp [List.filter_append, hon conn, Event.isRequestOn, hne]
        · intro c q r hm
          rcases List.mem_append.mp hm with hm | hm
          · exact hpw c q r hm
          · simp at hm

/-- What `pwdModify` adds to the history when the primary connection was dialled earlier: the
one `PasswordModify` on the primary connection, then events that are no request on that
connection and no `Modify`. -/
theorem pwdModify_trace (x : Externals) (p : LDAPUserProvider) (env : Env) (conn : ConnId)
    (req : PasswordModifyRequest) (t : Trace) (hconn : conn < t.length) :
    ∃ evs, (pwdModify x p env conn req t).2
        = t ++ .passwordModify conn req (env.PasswordModify t conn req) :: evs
      ∧ evs.filter (Event.isRequestOn conn) = []
      ∧ (∀ c q r, Event.modify c q r ∉ evs) := by
  simp only [pwdModify, connPasswordModify]
  cases env.PasswordModify t conn req with
  | none => exact ⟨[], by simp⟩
  | some err =>
    simp only
    cases getReferral x p err with
    | none => exact ⟨[], by simp⟩
    | some referral =>
      obtain ⟨cevs, h1, hon, hno⟩ := connectCustom_no_request env referral p.config.User
        p.config.Password p.config.StartTLS (t ++ [.passwordModify conn req (some err)])
      have hpw : ∀ c q r, Event.modify c q r ∉ cevs := by
        intro c q r hm
        have := hno _ hm
        simp [Event.isRequest] at this
      rcases hcc : connectCustom env referral p.config.User p.config.Password p.config.StartTLS
        (t ++ [.passwordModify conn req (some err)]) with ⟨cause | connReferral, t2⟩
      · rw [hcc] at h1
        simp only at h1
        subst h1
        exact ⟨cevs, by simp [hcc], hon conn, hpw⟩
      · have hid := connectCustom_ok_conn _ _ _ _ _ _ _ _ hcc
        rw [hcc] at h1
        simp only at h1
        subst h1
        have hne : connReferral ≠ conn := by
          rw [hid, List.length_append]
          exact Nat.ne_of_gt (Nat.lt_of_lt_of_le hconn (Nat.le_add_right _ _))
        simp only [hcc]
        refine ⟨cevs ++ [.passwordModify connReferral req
          (env.PasswordModify (t ++ [.passwordModify conn req (some err)] ++ cevs)
            connReferral req),
          .close connReferral], by simp [connClose, connPasswordModify], ?_, ?_⟩
        · simp [List.filter_append, hon conn, Event.isRequestOn, hne]
        · intro c q r hm
          rcases List.mem_append.mp hm with hm | hm
          · exact hpw c q r hm
          · simp at hm

theorem connect_ok_lt (p : LDAPUserProvider) (env : Env) (t t1 : Trace) (conn : ConnId)
    (hc : connect p env t = (.ok conn, t1)) : conn = t.length ∧ t.length < t1.length := by
  unfold connect at hc
  obtain ⟨cevs, h1, h2, -⟩ :=
    connectCustom_trace env p.config.URL p.config.User p.config.Password p.config.StartTLS t
  rw [hc] at h1
  simp only at h1
  subst h1
  refine ⟨connectCustom_ok_conn _ _ _ _ _ _ _ _ hc, ?_⟩
  cases cevs with
  | nil => simp [dialURLs] at h2
  | cons ev rest => simp

theorem getUserProfile_ok_le (x : Externals) (p : LDAPUserProvider) (env : Env) (conn : ConnId)
    (inputUsername : String) (t1 t2 : Trace) (r : Outcome (Except GoError ldapUserProfile))
    (hp : getUserProfile x p env conn inputUsername t1 = (r, t2)) : t1.length ≤ t2.length := by
  obtain ⟨evs, h⟩ := getUserProfile_trace x p env conn inputUsername t1
  rw [hp] at h
  simp only at h
  subst h
  simp

theorem UpdatePassword_snd (x : Externals) (p : LDAPUserProvider) (env : Env)
    (username password : String) (t t1 t2 : Trace) (conn : ConnId) (profile : ldapUserProfile)
    (hc : connect p env t = (.ok conn, t1))
    (hp : getUserProfile x p env conn username t1 = (.ret (.ok profile), t2)) :
    (UpdatePassword x p env username password t).2
      = (UpdatePasswordDispatch x p env conn profile password t2).2 ++ [.close conn] := by
  simp only [UpdatePassword, hc, hp, connClose]
  split <;> simp [*]

/-! ## The two encodings of the password -/

theorem char_toNat_scalar (c : Char) :
    c.toNat < 0xD800 ∨ (0xDFFF < c.toNat ∧ c.toNat < 0x110000) := c.valid

theorem utf8EncodeRune_lt (r : Nat) (h : r < 0x110000) : ∀ b ∈ utf8EncodeRune r, b < 256 := by
  intro b hb
  unfold utf8EncodeRune at hb
  split at hb
  · simp at hb; omega
  · split at hb
    · simp at hb; omega
    · split at hb
      · simp at hb; omega
      · simp at hb; omega

theorem utf16LittleEndianDecode_cons (lo hi : Nat) (rest : List Nat) :
    utf16LittleEndianDecode (lo :: hi :: rest) =
      if hi * 0x100 + lo < 0xD800 ∨ 0xDFFF < hi * 0x100 + lo then
        (utf16LittleEndianDecode rest).map fun rs => (hi * 0x100 + lo) :: rs
      else if hi * 0x100 + lo < 0xDC00 then
        match rest with
        | lo2 :: hi2 :: rest2 =>
          if 0xDC00 ≤ hi2 * 0x100 + lo2 ∧ hi2 * 0x100 + lo2 ≤ 0xDFFF then
            (utf16LittleEndianDecode rest2).map fun rs =>
              (0x10000 + (hi * 0x100 + lo - 0xD800) * 0x400 + (hi2 * 0x100 + lo2 - 0xDC00)) :: rs
          else none
        | _ => none
      else none := by
  rw [utf16LittleEndianDecode.eq_def]

theorem utf8DecodeFrom_encodeRune (r : Nat) (rest : List Nat)
    (h : r < 0xD800 ∨ (0xDFFF < r ∧ r < 0x110000)) :
    utf8DecodeFrom 0 0 0 (utf8EncodeRune r ++ rest)
      = (utf8DecodeFrom 0 0 0 rest).map fun rs => r :: rs := by
  unfold utf8EncodeRune
  by_cases h1 : r < 0x80
  · simp [h1, utf8DecodeFrom]
  · by_cases h2 : r < 0x800
    · have e : (0xC0 + r / 0x40 - 0xC0) * 0x40 + (0x80 + r % 0x40 - 0x80) = r := by omega
      have c1 : ¬ (0xC0 + r / 0x40 < 0x80) := by omega
      have c2 : ¬ (0xC0 + r / 0x40 < 0xC0) := by omega
      have c3 : 0xC0 + r / 0x40 < 0xE0 := by omega
      have c4 : 0x80 ≤ 0x80 + r % 0x40 ∧ 0x80 + r % 0x40 < 0xC0 := by omega
      have c5 : 0x80 ≤ r := by omega
      have c6 : r < 0xD800 ∨ (0xDFFF < r ∧ r < 0x110000) := h
      simp only [if_neg h1, if_pos h2, List.cons_append, List.nil_append, utf8DecodeFrom,
        if_neg c1, if_neg c2, if_pos c3, isContinuationByte, isScalarValue, c4, e, c5, c6,
        decide_True, and_self, if_true]
    · by_cases h3 : r < 0x10000
      · have e : ((0xE0 + r / 0x1000 - 0xE0) * 0x40 + (0x80 + r / 0x40 % 0x40 - 0x80)) * 0x40
            + (0x80 + r % 0x40 - 0x80) = r := by omega
        have c1 : ¬ (0xE0 + r / 0x1000 < 0x80) := by omega
        have c2 : ¬ (0xE0 + r / 0x1000 < 0xC0) := by omega
        have c3 : ¬ (0xE0 + r / 0x1000 < 0xE0) := by omega
        have c3b : 0xE0 + r / 0x1000 < 0xF0 := by omega
        have c4 : 0x80 ≤ 0x80 + r / 0x40 % 0x40 ∧ 0x80 + r / 0x40 % 0x40 < 0xC0 := by omega
        have c4b : 0x80 ≤ 0x80 + r % 0x40 ∧ 0x80 + r % 0x40 < 0xC0 := by omega
        have c5 : 0x800 ≤ r := by omega
        have c6 : r < 0xD800 ∨ (0xDFFF < r ∧ r < 0x110000) := h
        simp only [if_neg h1, if_neg h2, if_pos h3, List.cons_append, List.nil_append,
          utf8DecodeFrom, if_neg c1, if_neg c2, if_neg c3, if_pos c3b, isContinuationByte,
          isScalarValue, c4, c4b, e, c5, c6, decide_True, and_self, if_true, Nat.succ_ne_zero,
          if_false, OfNat.ofNat_ne_zero, one_ne_zero]
      · have e : (((0xF0 + r / 0x40000 - 0xF0) * 0x40 + (0x80 + r / 0x1000 % 0x40 - 0x80)) * 0x40
            + (0x80 + r / 0x40 % 0x40 - 0x80)) * 0x40 + (0x80 + r % 0x40 - 0x80) = r := by omega
        have c1 : ¬ (0xF0 + r / 0x40000 < 0x80) := by omega
        have c2 : ¬ (0xF0 + r / 0x40000 < 0xC0) := by omega
        have c3 : ¬ (0xF0 + r / 0x40000 < 0xE0) := by omega
        have c3b : ¬ (0xF0 + r / 0x40000 < 0xF0) := by omega
        have c3c : 0xF0 + r / 0x40000 < 0xF8 := by omega
        have c4 : 0x80 ≤ 0x80 + r / 0x1000 % 0x40 ∧ 0x80 + r / 0x1000 % 0x40 < 0xC0 := by omega
        have c4a : 0x80 ≤ 0x80 + r / 0x40 % 0x40 ∧ 0x80 + r / 0x40 % 0x40 < 0xC0 := by omega
        have c4b : 0x80 ≤ 0x80 + r % 0x40 ∧ 0x80 + r % 0x40 < 0xC0 := by omega
        have c5 : 0x10000 ≤ r := by omega
        have c6 : r < 0xD800 ∨ (0xDFFF < r ∧ r < 0x110000) := h
        simp only [if_neg h1, if_neg h2, if_neg h3, List.cons_append, List.nil_append,
          utf8DecodeFrom, if_neg c1, if_neg c2, if_neg c3, if_neg c3b, if_pos c3c,
          isContinuationByte, isScalarValue, c4, c4a, c4b, e, c5, c6, decide_True, and_self,
          if_true, Nat.succ_ne_zero, if_false, OfNat.ofNat_ne_zero, one_ne_zero]

theorem utf8Decode_stringBytes_data (cs : List Char) :
    utf8Decode (cs.map fun c => utf8EncodeRune c.toNat).flatten = some (cs.map Char.toNat) := by
  unfold utf8Decode
  induction cs with
  | nil => simp [utf8DecodeFrom]
  | cons c cs ih =>
    rw [List.map_cons, List.flatten_cons, utf8DecodeFrom_encodeRune _ _ (char_toNat_scalar c), ih]
    rfl

theorem stringBytes_lt (s : String) : ∀ b ∈ stringBytes s, b < 256 := by
  intro b hb
  simp only [stringBytes, List.mem_flatten, List.mem_map] at hb
  obtain ⟨l, ⟨c, -, rfl⟩, hb⟩ := hb
  have := char_toNat_scalar c
  exact utf8EncodeRune_lt c.toNat (by omega) b hb

theorem utf16LittleEndianRune_lt (r : Nat) (h : r < 0x110000) :
    ∀ b ∈ utf16LittleEndianRune r, b < 256 := by
  intro b hb
  unfold utf16LittleEndianRune at hb
  split at hb
  · simp at hb; omega
  · simp at hb; omega

theorem utf16LittleEndianDecode_rune (r : Nat) (rest : List Nat)
    (h : r < 0xD800 ∨ (0xDFFF < r ∧ r < 0x110000)) :
    utf16LittleEndianDecode (utf16LittleEndianRune r ++ rest)
      = (utf16LittleEndianDecode rest).map fun rs => r :: rs := by
  unfold utf16LittleEndianRune
  by_cases h1 : r ≤ 0xFFFF
  · have e : r / 0x100 * 0x100 + r % 0x100 = r := by omega
    have c1 : r < 0xD800 ∨ 0xDFFF < r := by omega
    rw [if_pos h1, List.cons_append, List.singleton_append, utf16LittleEndianDecode_cons]
    simp only [e, c1, if_true]
  · have e1 : (0xD800 + (r - 0x10000) / 0x400 % 0x400) / 0x100 * 0x100
        + (0xD800 + (r - 0x10000) / 0x400 % 0x400) % 0x100
        = 0xD800 + (r - 0x10000) / 0x400 % 0x400 := by omega
    have e2 : (0xDC00 + (r - 0x10000) % 0x400) / 0x100 * 0x100
        + (0xDC00 + (r - 0x10000) % 0x400) % 0x100 = 0xDC00 + (r - 0x10000) % 0x400 := by omega
    have c1 : ¬ (0xD800 + (r - 0x10000) / 0x400 % 0x400 < 0xD800
        ∨ 0xDFFF < 0xD800 + (r - 0x10000) / 0x400 % 0x400) := by omega
    have c2 : 0xD800 + (r - 0x10000) / 0x400 % 0x400 < 0xDC00 := by omega
    have c3 : 0xDC00 ≤ 0xDC00 + (r - 0x10000) % 0x400
        ∧ 0xDC00 + (r - 0x10000) % 0x400 ≤ 0xDFFF := by omega
    have e3 : 0x10000 + (0xD800 + (r - 0x10000) / 0x400 % 0x400 - 0xD800) * 0x400
        + (0xDC00 + (r - 0x10000) % 0x400 - 0xDC00) = r := by omega
    rw [if_neg h1]
    simp only [List.cons_append, List.nil_append]
    rw [utf16LittleEndianDecode_cons]
    simp only [e1, e2, c1, c2, c3, e3, if_true, if_false, and_self]

theorem utf16LittleEndianDecode_data (cs : List Char) :
    utf16LittleEndianDecode (cs.map fun c => utf16LittleEndianRune c.toNat).flatten
      = some (cs.map Char.toNat) := by
  induction cs with
  | nil => simp [utf16LittleEndianDecode]
  | cons c cs ih =>
    rw [List.map_cons, List.flatten_cons,
      utf16LittleEndianDecode_rune _ _ (char_toNat_scalar c), ih]
    rfl

theorem utf16LittleEndian_lt (s : String) : ∀ b ∈ utf16LittleEndian s, b < 256 := by
  intro b hb
  simp only [utf16LittleEndian, List.mem_flatten, List.mem_map] at hb
  obtain ⟨l, ⟨c, -, rfl⟩, hb⟩ := hb
  have := char_toNat_scalar c
  exact utf16LittleEndianRune_lt c.toNat (by omega) b hb

theorem utf16LittleEndian_append (a b : String) :
    utf16LittleEndian (a ++ b) = utf16LittleEndian a ++ utf16LittleEndian b := by
  simp [utf16LittleEndian]

theorem utf16LittleEndian_quoted (password : String) :
    utf16LittleEndian ("\"" ++ password ++ "\"")
      = [0x22, 0x00] ++ utf16LittleEndian password ++ [0x22, 0x00] := by
  rw [utf16LittleEndian_append, utf16LittleEndian_append]
  rfl

/-- C8: once the service connection is up and the profile resolved, `UpdatePassword` issues
exactly one request on the primary connection, on the resolved DN: with extended-operation
support a `PasswordModify` with empty old password and the new password, and then no `Modify`
on any connection; otherwise, for the active-directory implementation, a `Modify` replacing the
unicode-password attribute; otherwise a `Modify` replacing the generic password attribute with
the bytes of the new password as supplied.  Those bytes are the UTF-8 form of the password: read
back as UTF-8 they spell the password, character by character, each is below 256, and for
`NewPass1` and for a password with characters of two, three and four bytes they are the bytes
written out below. -/
theorem UpdatePassword_issues_one_request (x : Externals) (p : LDAPUserProvider) (env : Env)
    (username password : String) (t t1 t2 : Trace) (conn : ConnId) (profile : ldapUserProfile)
    (hc : connect p env t = (.ok conn, t1))
    (hp : getUserProfile x p env conn username t1 = (.ret (.ok profile), t2)) :
    (∃ request evs,
      (UpdatePassword x p env username password t).2 = t2 ++ request :: evs ++ [.close conn]
      ∧ (request :: evs).filter (Event.isRequestOn conn) = [request]
      ∧ (p.supportExtensionPasswdModify = true →
          request = .passwordModify conn
              { UserIdentity := profile.DN, OldPassword := "", NewPassword := password }
              (env.PasswordModify t2 conn
                { UserIdentity := profile.DN, OldPassword := "", NewPassword := password })
          ∧ ∀ ev ∈ request :: evs, ev.isModify = false)
      ∧ (p.supportExtensionPasswdModify = false →
          p.config.Implementation = x.LDAPImplementationActiveDirectory →
          request = .modify conn
              { DN := profile.DN,
                Changes := [{ Operation := .ReplaceAttribute,
                              AttrType := x.ldapAttributeUnicodePwd,
                              Vals := [utf16LittleEndian ("\"" ++ password ++ "\"")] }] }
              (env.Modify t2 conn
                { DN := profile.DN,
                  Changes := [{ Operation := .ReplaceAttribute,
                                AttrType := x.ldapAttributeUnicodePwd,
                                Vals := [utf16LittleEndian ("\"" ++ password ++ "\"")] }] }))
      ∧ (p.supportExtensionPasswdModify = false →
          p.config.Implementation ≠ x.LDAPImplementationActiveDirectory →
          request = .modify conn
              { DN := profile.DN,
                Changes := [{ Operation := .ReplaceAttribute,
                              AttrType := x.ldapAttributeUserPassword,
                              Vals := [stringBytes password] }] }
              (env.Modify t2 conn
                { DN := profile.DN,
                  Changes := [{ Operation := .ReplaceAttribute,
                                AttrType := x.ldapAttributeUserPassword,
                                Vals := [stringBytes password] }] })))
    ∧ utf8Decode (stringBytes password) = some (password.data.map Char.toNat)
    ∧ (∀ b ∈ stringBytes password, b < 256)
    ∧ stringBytes "NewPass1" = [0x4E, 0x65, 0x77, 0x50, 0x61, 0x73, 0x73, 0x31]
    ∧ stringBytes mixedPassword = [0x50, 0xC3, 0xA4, 0xE2, 0x82, 0xAC, 0xF0, 0x9F, 0x98, 0x80] := by
  refine ⟨?_, utf8Decode_stringBytes_data password.data, stringBytes_lt password, by decide,
    by decide⟩
  have hlt : conn < t2.length := by
    have h1 := connect_ok_lt p env t t1 conn hc
    have h2 := getUserProfile_ok_le x p env conn username t1 t2 _ hp
    rw [h1.1]
    exact Nat.lt_of_lt_of_le h1.2 h2
  rw [UpdatePassword_snd x p env username password t t1 t2 conn profile hc hp]
  unfold UpdatePasswordDispatch
  by_cases hext : p.supportExtensionPasswdModify = true
  · obtain ⟨evs, h1, h2, h3⟩ := pwdModify_trace x p env conn
      { UserIdentity := profile.DN, OldPassword := "", NewPassword := password } t2 hlt
    refine ⟨.passwordModify conn
        { UserIdentity := profile.DN, OldPassword := "", NewPassword := password }
        (env.PasswordModify t2 conn
          { UserIdentity := profile.DN, OldPassword := "", NewPassword := password }),
      evs, by simp [hext, h1], ?_, ?_, ?_, ?_⟩
    · simp [List.filter_cons, Event.isRequestOn, h2]
    · intro _
      refine ⟨rfl, ?_⟩
      intro ev hev
      rcases List.mem_cons.mp hev with rfl | hev
      · rfl
      · cases ev <;> first | rfl | exact absurd hev (h3 _ _ _)
    · intro h; simp [hext] at h
    · intro h; simp [hext] at h
  · by_cases himpl : p.config.Implementation = x.LDAPImplementationActiveDirectory
    · obtain ⟨evs, h1, h2, -⟩ := modify_trace x p env conn
        ((NewModifyRequest profile.DN).Replace x.ldapAttributeUnicodePwd
          [utf16LittleEndian ("\"" ++ password ++ "\"")]) t2 hlt
      refine ⟨.modify conn
        ((NewModifyRequest profile.DN).Replace x.ldapAttributeUnicodePwd
          [utf16LittleEndian ("\"" ++ password ++ "\"")])
        (env.Modify t2 conn ((NewModifyRequest profile.DN).Replace x.ldapAttributeUnicodePwd
          [utf16LittleEndian ("\"" ++ password ++ "\"")])),
        evs, by simp [hext, himpl, h1], ?_, ?_, ?_, ?_⟩
      · simp [List.filter_cons, Event.isRequestOn, h2]
      · intro h; exact absurd h hext
      · intro _ _; simp [NewModifyRequest, ModifyRequest.Replace]
      · intro _ h; exact absurd himpl h
    · obtain ⟨evs, h1, h2, -⟩ := modify_trace x p env conn
        ((NewModifyRequest profile.DN).Replace x.ldapAttributeUserPassword
          [stringBytes password]) t2 hlt
      refine ⟨.modify conn
        ((NewModifyRequest profile.DN).Replace x.ldapAttributeUserPassword
          [stringBytes password])
        (env.Modify t2 conn ((NewModifyRequest profile.DN).Replace x.ldapAttributeUserPassword
          [stringBytes password])),
        evs, by simp [hext, himpl, h1], ?_, ?_, ?_, ?_⟩
      · simp [List.filter_cons, Event.isRequestOn, h2]
      · intro h; exact absurd h hext
      · intro _ h; exact absurd h himpl
      · intro _ _; simp [NewModifyRequest, ModifyRequest.Replace]

/-- C9: with the active-directory implementation and no extended-operation support, once the
service connection is up and the profile resolved, the request that `UpdatePassword` issues on
the primary connection is a `Modify` on the resolved DN with the single change "replace the
unicode-password attribute by one value"; that value is the UTF-16 little-endian bytes of the
password between the two bytes `22 00` of a double quote, with no byte-order mark in front.
Read back as little-endian UTF-16 the value spells the quote, the password character by
character, and the quote; each of its bytes is below 256; for the password `NewPass1` it is the
twenty bytes of the claim, and for a password with a character above U+007F, one above U+07FF
and one outside the basic plane it is the bytes written out below, the low byte of every code
unit first and a surrogate pair for the last character. -/
theorem UpdatePassword_active_directory_value (x : Externals) (p : LDAPUserProvider)
    (env : Env) (username password : String) (t t1 t2 : Trace) (conn : ConnId)
    (profile : ldapUserProfile)
    (hext : p.supportExtensionPasswdModify = false)
    (himpl : p.config.Implementation = x.LDAPImplementationActiveDirectory)
    (hc : connect p env t = (.ok conn, t1))
    (hp : getUserProfile x p env conn username t1 = (.ret (.ok profile), t2)) :
    (∃ res evs,
      (UpdatePassword x p env username password t).2
        = t2 ++ .modify conn
            { DN := profile.DN,
              Changes := [{ Operation := .ReplaceAttribute,
                            AttrType := x.ldapAttributeUnicodePwd,
                            Vals := [[0x22, 0x00] ++ utf16LittleEndian password
                                      ++ [0x22, 0x00]] }] } res :: evs
      ∧ evs.filter (Event.isRequestOn conn) = [])
    ∧ [0x22, 0x00] ++ utf16LittleEndian "NewPass1" ++ [0x22, 0x00]
        = [0x22, 0x00, 0x4E, 0x00, 0x65, 0x00, 0x77, 0x00, 0x50, 0x00, 0x61, 0x00, 0x73, 0x00,
           0x73, 0x00, 0x31, 0x00, 0x22, 0x00]
    ∧ utf16LittleEndianDecode ([0x22, 0x00] ++ utf16LittleEndian password ++ [0x22, 0x00])
        = some ([0x22] ++ password.data.map Char.toNat ++ [0x22])
    ∧ (∀ b ∈ [0x22, 0x00] ++ utf16LittleEndian password ++ [0x22, 0x00], b < 256)
    ∧ [0x22, 0x00] ++ utf16LittleEndian mixedPassword ++ [0x22, 0x00]
        = [0x22, 0x00, 0x50, 0x00, 0xE4, 0x00, 0xAC, 0x20, 0x3D, 0xD8, 0x00, 0xDE,
           0x22, 0x00] := by
  refine ⟨?_, by decide, ?_, ?_, by decide⟩
  · have hlt : conn < t2.length := by
      have h1 := connect_ok_lt p env t t1 conn hc
      have h2 := getUserProfile_ok_le x p env conn username t1 t2 _ hp
      rw [h1.1]
      exact Nat.lt_of_lt_of_le h1.2 h2
    obtain ⟨evs, h1, h2, -⟩ := modify_trace x p env conn
      ((NewModifyRequest profile.DN).Replace x.ldapAttributeUnicodePwd
        [utf16LittleEndian ("\"" ++ password ++ "\"")]) t2 hlt
    refine ⟨env.Modify t2 conn ((NewModifyRequest profile.DN).Replace x.ldapAttributeUnicodePwd
        [utf16LittleEndian ("\"" ++ password ++ "\"")]), evs ++ [.close conn], ?_, ?_⟩
    · rw [UpdatePassword_snd x p env username password t t1 t2 conn profile hc hp]
      unfold UpdatePasswordDispatch
      simp only [hext, himpl, if_true, Bool.false_eq_true, if_false]
      rw [h1, ← utf16LittleEndian_quoted password]
      simp [NewModifyRequest, ModifyRequest.Replace]
    · simp [List.filter_append, h2, Event.isRequestOn]
  · rw [← utf16LittleEndian_quoted password]
    unfold utf16LittleEndian
    rw [utf16LittleEndianDecode_data]
    simp
  · intro b hb
    rw [← utf16LittleEndian_quoted password] at hb
    exact utf16LittleEndian_lt _ b hb

/-- Instance of C9: the password of alice is set to `NewPass1`, and to the password with
characters of every length class, in the example directory; the value is written out byte by
byte. -/
theorem UpdatePassword_active_directory_value_witness :
    (exampleProvider false false "activedirectory").supportExtensionPasswdModify = false
    ∧ (exampleProvider false false "activedirectory").config.Implementation
        = exampleExternals.LDAPImplementationActiveDirectory
    ∧ (∃ res evs,
      (UpdatePassword exampleExternals (exampleProvider false false "activedirectory")
          exampleDirectory "alice" "NewPass1" []).2
        = exampleResolved ++ .modify 0
            { DN := "uid=alice,ou=users,dc=example,dc=com",
              Changes := [{ Operation := .ReplaceAttribute,
                            AttrType := "unicodePwd",
                            Vals := [[0x22, 0x00, 0x4E, 0x00, 0x65, 0x00, 0x77, 0x00, 0x50, 0x00,
                                      0x61, 0x00, 0x73, 0x00, 0x73, 0x00, 0x31, 0x00,
                                      0x22, 0x00]] }] } res :: evs
      ∧ evs.filter (Event.isRequestOn 0) = [])
    ∧ (∃ res evs,
      (UpdatePassword exampleExternals (exampleProvider false false "activedirectory")
          exampleDirectory "alice" mixedPassword []).2
        = exampleResolved ++ .modify 0
            { DN := "uid=alice,ou=users,dc=example,dc=com",
              Changes := [{ Operation := .ReplaceAttribute,
                            AttrType := "unicodePwd",
                            Vals := [[0x22, 0x00, 0x50, 0x00, 0xE4, 0x00, 0xAC, 0x20,
                                      0x3D, 0xD8, 0x00, 0xDE, 0x22, 0x00]] }] } res :: evs
      ∧ evs.filter (Event.isRequestOn 0) = [])
    ∧ utf16LittleEndianDecode [0x22, 0x00, 0x50, 0x00, 0xE4, 0x00, 0xAC, 0x20,
                               0x3D, 0xD8, 0x00, 0xDE, 0x22, 0x00]
        = some [0x22, 0x50, 0xE4, 0x20AC, 0x1F600, 0x22] :=
  ⟨rfl, rfl,
   (UpdatePassword_active_directory_value exampleExternals
      (exampleProvider false false "activedirectory") exampleDirectory "alice" "NewPass1"
      [] exampleConnected exampleResolved 0 aliceProfile rfl rfl rfl rfl).1,
   (UpdatePassword_active_directory_value exampleExternals
      (exampleProvider false false "activedirectory") exampleDirectory "alice" mixedPassword
      [] exampleConnected exampleResolved 0 aliceProfile rfl rfl rfl rfl).1,
   (UpdatePassword_active_directory_value exampleExternals
      (exampleProvider false false "activedirectory") exampleDirectory "alice" mixedPassword
      [] exampleConnected exampleResolved 0 aliceProfile rfl rfl rfl rfl).2.2.1⟩

/-- Instance of C8: the three strategies in the example directory, the requests and the bytes
of the generic value written out. -/
theorem UpdatePassword_issues_one_request_witness :
    (∃ request evs,
      (UpdatePassword exampleExternals (exampleProvider false true "activedirectory")
          exampleDirectory "alice" "NewPass1" []).2
        = exampleResolved ++ request :: evs ++ [.close 0]
      ∧ (request :: evs).filter (Event.isRequestOn 0) = [request]
      ∧ request = .passwordModify 0
          { UserIdentity := "uid=alice,ou=users,dc=example,dc=com", OldPassword := "",
            NewPassword := "NewPass1" } none
      ∧ ∀ ev ∈ request :: evs, ev.isModify = false)
    ∧ (∃ request evs,
      (UpdatePassword exampleExternals (exampleProvider false false "activedirectory")
          exampleDirectory "alice" "NewPass1" []).2
        = exampleResolved ++ request :: evs ++ [.close 0]
      ∧ (request :: evs).filter (Event.isRequestOn 0) = [request]
      ∧ request = .modify 0
          { DN := "uid=alice,ou=users,dc=example,dc=com",
            Changes := [{ Operation := .ReplaceAttribute, AttrType := "unicodePwd",
                          Vals := [[0x22, 0x00, 0x4E, 0x00, 0x65, 0x00, 0x77, 0x00, 0x50, 0x00,
                                    0x61, 0x00, 0x73, 0x00, 0x73, 0x00, 0x31, 0x00,
                                    0x22, 0x00]] }] } none)
    ∧ (∃ request evs,
      (UpdatePassword exampleExternals (exampleProvider false false "custom")
          exampleDirectory "alice" "NewPass1" []).2
        = exampleResolved ++ request :: evs ++ [.close 0]
      ∧ (request :: evs).filter (Event.isRequestOn 0) = [request]
      ∧ request = .modify 0
          { DN := "uid=alice,ou=users,dc=example,dc=com",
            Changes := [{ Operation := .ReplaceAttribute, AttrType := "userPassword",
                          Vals := [[0x4E, 0x65, 0x77, 0x50, 0x61, 0x73, 0x73, 0x31]] }] } none)
    ∧ (∃ request evs,
      (UpdatePassword exampleExternals (exampleProvider false false "custom")
          exampleDirectory "alice" mixedPassword []).2
        = exampleResolved ++ request :: evs ++ [.close 0]
      ∧ (request :: evs).filter (Event.isRequestOn 0) = [request]
      ∧ request = .modify 0
          { DN := "uid=alice,ou=users,dc=example,dc=com",
            Changes := [{ Operation := .ReplaceAttribute, AttrType := "userPassword",
                          Vals := [[0x50, 0xC3, 0xA4, 0xE2, 0x82, 0xAC, 0xF0, 0x9F, 0x98,
                                    0x80]] }] } none)
    ∧ utf8Decode [0x50, 0xC3, 0xA4, 0xE2, 0x82, 0xAC, 0xF0, 0x9F, 0x98, 0x80]
        = some [0x50, 0xE4, 0x20AC, 0x1F600] := by
  refine ⟨?_, ?_, ?_, ?_, ?_⟩
  · obtain ⟨⟨request, evs, h1, h2, h3, -⟩, -⟩ :=
      UpdatePassword_issues_one_request exampleExternals
        (exampleProvider false true "activedirectory") exampleDirectory "alice" "NewPass1"
        [] exampleConnected exampleResolved 0 aliceProfile rfl rfl
    exact ⟨request, evs, h1, h2, (h3 rfl).1, (h3 rfl).2⟩
  · obtain ⟨⟨request, evs, h1, h2, -, h4, -⟩, -⟩ :=
      UpdatePassword_issues_one_request exampleExternals
        (exampleProvider false false "activedirectory") exampleDirectory "alice" "NewPass1"
        [] exampleConnected exampleResolved 0 aliceProfile rfl rfl
    exact ⟨request, evs, h1, h2, h4 rfl rfl⟩
  · obtain ⟨⟨request, evs, h1, h2, -, -, h5⟩, -⟩ :=
      UpdatePassword_issues_one_request exampleExternals
        (exampleProvider false false "custom") exampleDirectory "alice" "NewPass1"
        [] exampleConnected exampleResolved 0 aliceProfile rfl rfl
    exact ⟨request, evs, h1, h2, h5 rfl (by decide)⟩
  · obtain ⟨⟨request, evs, h1, h2, -, -, h5⟩, -⟩ :=
      UpdatePassword_issues_one_request exampleExternals
        (exampleProvider false false "custom") exampleDirectory "alice" mixedPassword
        [] exampleConnected exampleResolved 0 aliceProfile rfl rfl
    exact ⟨request, evs, h1, h2, h5 rfl (by decide)⟩
  · exact (UpdatePassword_issues_one_request exampleExternals
        (exampleProvider false false "custom") exampleDirectory "alice" mixedPassword
        [] exampleConnected exampleResolved 0 aliceProfile rfl rfl).2.1

/-! ## Profile resolution and the credential check -/

/-- C10: when the user-lookup search succeeds, `getUserProfile` classifies by the number of
entries: none gives exactly the sentinel `ErrUserNotFound`; more than one gives the "multiple
users" error, which neither is nor wraps the sentinel; and `GetDetails`, after a successful
service connection, returns the sentinel itself, unwrapped, for a username that matches no
entry. -/
theorem getUserProfile_classifies_by_entry_count (x : Externals) (p : LDAPUserProvider)
    (env : Env) (conn : ConnId) (inputUsername : String) (t t1 : Trace)
    (searchResult : SearchResult)
    (hsearch : search x p env conn (getUserProfileSearchRequest x p inputUsername) t
      = (.ret (some searchResult, none), t1)) :
    (searchResult.Entries.length = 0 →
      getUserProfile x p env conn inputUsername t = (.ret (.error .ErrUserNotFound), t1))
    ∧ (1 < searchResult.Entries.length →
        getUserProfile x p env conn inputUsername t
          = (.ret (.error (.errorf "multiple users %s found" [inputUsername])), t1)
        ∧ GoError.errorf "multiple users %s found" [inputUsername] ≠ .ErrUserNotFound
        ∧ errorsIs (.errorf "multiple users %s found" [inputUsername]) .ErrUserNotFound = false)
    ∧ (∀ t0, connect p env t0 = (.ok conn, t) → searchResult.Entries.length = 0 →
        GetDetails x p env inputUsername t0
          = (.ret (.error .ErrUserNotFound), t1 ++ [.close conn])) := by
  have hzero : searchResult.Entries.length = 0 →
      getUserProfile x p env conn inputUsername t = (.ret (.error .ErrUserNotFound), t1) := by
    intro h0
    have hnil : searchResult.Entries = [] := List.length_eq_zero.mp h0
    simp [getUserProfile, hsearch, hnil]
  refine ⟨hzero, ?_, ?_⟩
  · intro hmany
    refine ⟨?_, by simp, by simp [errorsIs]⟩
    rcases hentries : searchResult.Entries with _ | ⟨e1, _ | ⟨e2, rest⟩⟩
    · simp [hentries] at hmany
    · simp [hentries] at hmany
    · simp [getUserProfile, hsearch, hentries]
  · intro t0 hc h0
    simp [GetDetails, hc, hzero h0, connClose]

/-- Instance of C10: a directory that knows nobody, and one that answers with two records. -/
theorem getUserProfile_classifies_by_entry_count_witness :
    getUserProfile exampleExternals (exampleProvider false false "custom")
        (exampleEnv "" "" (.ok { Entries := [], Referrals := [] })
          (.ok { Entries := [], Referrals := [] }) fun _ => none) 0 "mallory" exampleConnected
      = (.ret (.error .ErrUserNotFound),
         exampleConnected ++
          [.search 0
            (getUserProfileSearchRequest exampleExternals (exampleProvider false false "custom")
              "mallory")
            (.ok { Entries := [], Referrals := [] })])
    ∧ GetDetails exampleExternals (exampleProvider false false "custom")
        (exampleEnv "" "" (.ok { Entries := [], Referrals := [] })
          (.ok { Entries := [], Referrals := [] }) fun _ => none) "mallory" []
      = (.ret (.error .ErrUserNotFound),
         exampleConnected ++
          [.search 0
            (getUserProfileSearchRequest exampleExternals (exampleProvider false false "custom")
              "mallory")
            (.ok { Entries := [], Referrals := [] })] ++ [.close 0])
    ∧ getUserProfile exampleExternals (exampleProvider false false "custom")
        (exampleEnv "" "" (.ok { Entries := [aliceEntry, bobEntry], Referrals := [] })
          (.ok { Entries := [], Referrals := [] }) fun _ => none) 0 "alice" exampleConnected
      = (.ret (.error (.errorf "multiple users %s found" ["alice"])),
         exampleConnected ++
          [.search 0 exampleRequest
            (.ok { Entries := [aliceEntry, bobEntry], Referrals := [] })]) :=
  ⟨(getUserProfile_classifies_by_entry_count exampleExternals
      (exampleProvider false false "custom")
      (exampleEnv "" "" (.ok { Entries := [], Referrals := [] })
        (.ok { Entries := [], Referrals := [] }) fun _ => none) 0 "mallory" exampleConnected _
      { Entries := [], Referrals := [] } rfl).1 rfl,
   (getUserProfile_classifies_by_entry_count exampleExternals
      (exampleProvider false false "custom")
      (exampleEnv "" "" (.ok { Entries := [], Referrals := [] })
        (.ok { Entries := [], Referrals := [] }) fun _ => none) 0 "mallory" exampleConnected _
      { Entries := [], Referrals := [] } rfl).2.2 [] rfl rfl,
   ((getUserProfile_classifies_by_entry_count exampleExternals
      (exampleProvider false false "custom")
      (exampleEnv "" "" (.ok { Entries := [aliceEntry, bobEntry], Referrals := [] })
        (.ok { Entries := [], Referrals := [] }) fun _ => none) 0 "alice" exampleConnected _
      { Entries := [aliceEntry, bobEntry], Referrals := [] } rfl).2.1 (by decide)).1⟩

theorem connectCustom_error_not_authenticationFailed (env : Env)
    (url userDN password : String) (startTLS : Bool) (t t1 : Trace) (err : GoError)
    (h : connectCustom env url userDN password startTLS t = (.error err, t1)) :
    isAuthenticationFailed err = false := by
  unfold connectCustom at h
  split at h
  · simp at h
    rw [← h.1]
    simp [isAuthenticationFailed]
  · split at h
    · simp at h
      rw [← h.1]
      simp [isAuthenticationFailed]
    · split at h
      · simp at h
        rw [← h.1]
        simp [isAuthenticationFailed]
      · simp at h

theorem getUserProfileAttributes_error_not_authenticationFailed (p : LDAPUserProvider)
    (inputUsername : String) (attrs : List EntryAttribute) (userProfile : ldapUserProfile)
    (err : GoError)
    (h : getUserProfileAttributes p inputUsername attrs userProfile = .ret (.error err)) :
    isAuthenticationFailed err = false := by
  induction attrs generalizing userProfile with
  | nil => simp [getUserProfileAttributes] at h
  | cons attr rest ih =>
    unfold getUserProfileAttributes at h
    simp only at h
    split at h
    · simp at h
    · split at h
      · split at h
        · exact ih _ h
        · simp at h
          rw [← h]
          rfl
      · exact ih _ h

theorem getUserProfile_error_not_authenticationFailed (x : Externals) (p : LDAPUserProvider)
    (env : Env) (conn : ConnId) (inputUsername : String) (t t1 : Trace) (err : GoError)
    (h : getUserProfile x p env conn inputUsername t = (.ret (.error err), t1)) :
    isAuthenticationFailed err = false := by
  unfold getUserProfile at h
  split at h
  · simp at h
  · simp at h
    rw [← h.1]
    simp [isAuthenticationFailed]
  · simp at h
  · split at h
    · simp at h
      rw [← h.1]
      rfl
    · simp at h
      rw [← h.1]
      rfl
    · split at h
      · simp at h
      · rename_i hattrs
        simp at h
        rw [← h.1]
        exact getUserProfileAttributes_error_not_authenticationFailed _ _ _ _ _ hattrs
      · split at h
        · simp at h
          rw [← h.1]
          rfl
        · simp at h

/-- C3: when the service connection is up and the profile resolved, `CheckUserPassword` runs
one connect-and-bind to the configured URL as the profile DN with the supplied password; the
connection it dials there is a new one, distinct from the service connection; the result is
`(true, nil)` exactly when that connect-and-bind succeeds, and otherwise `(false, err)` with
`err` the failure cause wrapped as "authentication failed".  A failure of the service
connection or of the profile resolution is returned as it is and never has that
classification. -/
theorem CheckUserPassword_valid_iff_user_bind (x : Externals) (p : LDAPUserProvider)
    (env : Env) (inputUsername password : String) (t : Trace) :
    (∀ conn t1 profile t2, connect p env t = (.ok conn, t1) →
      getUserProfile x p env conn inputUsername t1 = (.ret (.ok profile), t2) →
      CheckUserPassword x p env inputUsername password t
        = (match connectCustom env p.config.URL profile.DN password p.config.StartTLS t2 with
           | (.ok connUser, t3) => (.ret (true, none), t3 ++ [.close connUser, .close conn])
           | (.error cause, t3) =>
             (.ret (false, some (.errorfW "authentication failed. Cause: %w" [] cause)),
              t3 ++ [.close conn]))
      ∧ ((CheckUserPassword x p env inputUsername password t).1 = .ret (true, none) ↔
          ∃ connUser,
            (connectCustom env p.config.URL profile.DN password p.config.StartTLS t2).1
              = .ok connUser)
      ∧ (∀ connUser,
          (connectCustom env p.config.URL profile.DN password p.config.StartTLS t2).1
            = .ok connUser →
          connUser = t2.length ∧ connUser ≠ conn)
      ∧ (∀ cause,
          (connectCustom env p.config.URL profile.DN password p.config.StartTLS t2).1
            = .error cause →
          (CheckUserPassword x p env inputUsername password t).1
            = .ret (false, some (.errorfW "authentication failed. Cause: %w" [] cause))
          ∧ isAuthenticationFailed (.errorfW "authentication failed. Cause: %w" [] cause)
            = true))
    ∧ (∀ err t1, connect p env t = (.error err, t1) →
        CheckUserPassword x p env inputUsername password t = (.ret (false, some err), t1)
        ∧ isAuthenticationFailed err = false)
    ∧ (∀ conn t1 err t2, connect p env t = (.ok conn, t1) →
        getUserProfile x p env conn inputUsername t1 = (.ret (.error err), t2) →
        CheckUserPassword x p env inputUsername password t
          = (.ret (false, some err), t2 ++ [.close conn])
        ∧ isAuthenticationFailed err = false) := by
  refine ⟨?_, ?_, ?_⟩
  · intro conn t1 profile t2 hc hp
    have hlt : conn < t2.length := by
      have h1 := connect_ok_lt p env t t1 conn hc
      have h2 := getUserProfile_ok_le x p env conn inputUsername t1 t2 _ hp
      rw [h1.1]
      exact Nat.lt_of_lt_of_le h1.2 h2
    rcases hu : connectCustom env p.config.URL profile.DN password p.config.StartTLS t2
      with ⟨cause | connUser, t3⟩
    · refine ⟨by simp [CheckUserPassword, hc, hp, hu, connClose], ?_, ?_, ?_⟩
      · simp [CheckUserPassword, hc, hp, hu]
      · intro connUser h
        simp at h
      · intro cause1 h
        simp at h
        subst h
        exact ⟨by simp [CheckUserPassword, hc, hp, hu], rfl⟩
    · refine ⟨by simp [CheckUserPassword, hc, hp, hu, connClose], ?_, ?_, ?_⟩
      · simp [CheckUserPassword, hc, hp, hu]
      · intro connUser1 h
        simp at h
        subst h
        have hid := connectCustom_ok_conn _ _ _ _ _ _ _ _ hu
        exact ⟨hid, by rw [hid]; exact Nat.ne_of_gt hlt⟩
      · intro cause h
        simp at h
  · intro err t1 hc
    exact ⟨by simp [CheckUserPassword, hc],
      connectCustom_error_not_authenticationFailed _ _ _ _ _ _ _ _ hc⟩
  · intro conn t1 err t2 hc hp
    exact ⟨by simp [CheckUserPassword, hc, hp, connClose],
      getUserProfile_error_not_authenticationFailed _ _ _ _ _ _ _ _ hp⟩

/-- Instance of C3 in the example directory: alice with a rejected password, alice with an
accepted password, and a username that matches no entry. -/
theorem CheckUserPassword_valid_iff_user_bind_witness :
    CheckUserPassword exampleExternals (exampleProvider false false "custom") exampleDirectory
        "alice" "wrong" []
      = (.ret (false, some (.errorfW "authentication failed. Cause: %w" []
            (.errorfW "bind failed with error: %w" [] (.ext 49)))),
         exampleResolved ++
          [.dialed "ldap://directory.example.com" 3,
           .bind 3 "uid=alice,ou=users,dc=example,dc=com" "wrong" (some (.ext 49)),
           .close 0])
    ∧ CheckUserPassword exampleExternals (exampleProvider false false "custom")
        exampleDirectory "alice" "correct horse" []
      = (.ret (true, none),
         exampleResolved ++
          [.dialed "ldap://directory.example.com" 3,
           .bind 3 "uid=alice,ou=users,dc=example,dc=com" "correct horse" none,
           .close 3, .close 0])
    ∧ (CheckUserPassword exampleExternals (exampleProvider false false "custom")
        (exampleEnv "" "" (.ok { Entries := [], Referrals := [] })
          (.ok { Entries := [], Referrals := [] }) fun _ => none) "mallory" "secret" []
      = (.ret (false, some .ErrUserNotFound),
         exampleConnected ++
          [.search 0
            (getUserProfileSearchRequest exampleExternals (exampleProvider false false "custom")
              "mallory")
            (.ok { Entries := [], Referrals := [] })] ++ [.close 0])
      ∧ isAuthenticationFailed .ErrUserNotFound = false) :=
  ⟨((CheckUserPassword_valid_iff_user_bind exampleExternals
      (exampleProvider false false "custom") exampleDirectory "alice" "wrong" []).1
      0 exampleConnected aliceProfile exampleResolved rfl rfl).1,
   ((CheckUserPassword_valid_iff_user_bind exampleExternals
      (exampleProvider false false "custom") exampleDirectory "alice" "correct horse" []).1
      0 exampleConnected aliceProfile exampleResolved rfl rfl).1,
   (CheckUserPassword_valid_iff_user_bind exampleExternals
      (exampleProvider false false "custom")
      (exampleEnv "" "" (.ok { Entries := [], Referrals := [] })
        (.ok { Entries := [], Referrals := [] }) fun _ => none) "mallory" "secret" []).2.2
      0 exampleConnected .ErrUserNotFound _ rfl rfl⟩

/-! ## Connection lifetime -/

/-- C2, the code at a failing input: alice is known and her password is rejected.  The call
returns `(false, authentication failed)`; it dialled the service connection 0 and the user
connection 3; connection 0 was closed once, connection 3 was never closed. -/
theorem CheckUserPassword_rejected_bind_never_closed :
    (CheckUserPassword exampleExternals (exampleProvider false false "custom") exampleDirectory
        "alice" "wrong" []).1
      = .ret (false, some (.errorfW "authentication failed. Cause: %w" []
          (.errorfW "bind failed with error: %w" [] (.ext 49))))
    ∧ dialedConns (CheckUserPassword exampleExternals (exampleProvider false false "custom")
        exampleDirectory "alice" "wrong" []).2 = [0, 3]
    ∧ closeCount 0 (CheckUserPassword exampleExternals (exampleProvider false false "custom")
        exampleDirectory "alice" "wrong" []).2 = 1
    ∧ closeCount 3 (CheckUserPassword exampleExternals (exampleProvider false false "custom")
        exampleDirectory "alice" "wrong" []).2 = 0 := by
  decide

/-! ## The resolved profile -/

/-- C1, the code at a failing input: the directory is reachable, the service account binds
and the user search returns the one record of dave, whose display-name attribute is present with
zero values.  `CheckUserPassword("dave", "secret")` returns neither `(true, nil)` nor
`(false, err)`: it panics on the index `attr.Values[0]` of line 331, reached from the call of
`getUserProfile` at line 98, after the deferred `Close` of the service connection has run; the
history is written out. -/
theorem CheckUserPassword_panics_without_returning :
    CheckUserPassword exampleExternals (exampleProvider false false "custom")
        (oneRecordDirectory daveEntry) "dave" "secret" []
      = (.panicked "index out of range [0] with length 0",
         [.dialed "ldap://directory.example.com" 0,
          .bind 0 "cn=admin,dc=example,dc=com" "service-secret" none,
          .search 0
            (getUserProfileSearchRequest exampleExternals (exampleProvider false false "custom")
              "dave")
            (.ok { Entries := [daveEntry], Referrals := [] }),
          .close 0])
    ∧ (CheckUserPassword exampleExternals (exampleProvider false false "custom")
        (oneRecordDirectory daveEntry) "dave" "secret" []).1 ≠ .ret (true, none)
    ∧ (∀ err, (CheckUserPassword exampleExternals (exampleProvider false false "custom")
        (oneRecordDirectory daveEntry) "dave" "secret" []).1 ≠ .ret (false, some err))
    ∧ (∀ valid err, (CheckUserPassword exampleExternals (exampleProvider false false "custom")
        (oneRecordDirectory daveEntry) "dave" "secret" []).1 ≠ .ret (valid, err)) := by
  have h : (CheckUserPassword exampleExternals (exampleProvider false false "custom")
      (oneRecordDirectory daveEntry) "dave" "secret" []).1
      = .panicked "index out of range [0] with length 0" := rfl
  refine ⟨rfl, ?_, ?_, ?_⟩
  · rw [h]; exact fun hc => Outcome.noConfusion hc
  · intro err; rw [h]; exact fun hc => Outcome.noConfusion hc
  · intro valid err; rw [h]; exact fun hc => Outcome.noConfusion hc

/-- C14, the code at a failing input: the one matched record carries the display-name attribute
with zero values.  `getUserProfile` does not complete: it panics on the index `attr.Values[0]`
of line 331, and so does `CheckUserPassword`. -/
theorem getUserProfile_panics_on_empty_display_name :
    getUserProfile exampleExternals (exampleProvider false false "custom")
        (oneRecordDirectory daveEntry) 0 "dave" exampleConnected
      = (.panicked "index out of range [0] with length 0",
         exampleConnected ++
          [.search 0
            (getUserProfileSearchRequest exampleExternals (exampleProvider false false "custom")
              "dave")
            (.ok { Entries := [daveEntry], Referrals := [] })])
    ∧ (CheckUserPassword exampleExternals (exampleProvider false false "custom")
        (oneRecordDirectory daveEntry) "dave" "secret" []).1
      = .panicked "index out of range [0] with length 0" := by
  exact ⟨rfl, rfl⟩

/-- C11, the code at a failing input: the one matched record has a DN and no username
attribute.  `getUserProfile` returns a profile, without error, whose `Username` is empty; a
record whose username attribute is present with no value is refused. -/
theorem getUserProfile_accepts_absent_username :
    getUserProfile exampleExternals (exampleProvider false false "custom")
        (oneRecordDirectory carolEntry) 0 "carol" exampleConnected
      = (.ret (.ok { DN := "cn=carol,ou=users,dc=example,dc=com",
                     Emails := ["carol@example.com"], DisplayName := "", Username := "" }),
         exampleConnected ++
          [.search 0
            (getUserProfileSearchRequest exampleExternals (exampleProvider false false "custom")
              "carol")
            (.ok { Entries := [carolEntry], Referrals := [] })])
    ∧ (getUserProfile exampleExternals (exampleProvider false false "custom")
        (oneRecordDirectory erinEntry) 0 "erin" exampleConnected).1
      = .ret (.error (.errorf "user '%s' cannot have multiple value for attribute '%s'"
          ["erin", "uid"])) := by
  exact ⟨rfl, rfl⟩

/-! ## Group details -/

theorem GetDetailsGroups_eq_flattenedGroups (entries : List Entry) (groups : List String) :
    GetDetailsGroups entries groups = groups ++ flattenedGroups entries := by
  induction entries generalizing groups with
  | nil => simp [GetDetailsGroups, flattenedGroups]
  | cons res rest ih =>
    rcases hattrs : res.Attributes with _ | ⟨attr, others⟩
    · simp [GetDetailsGroups, flattenedGroups, hattrs]
    · have hrest := ih (groups ++ attr.Values)
      simp only [GetDetailsGroups, hattrs, hrest]
      simp [flattenedGroups, hattrs]

theorem resolveGroupsFilter_no_error (x : Externals) (p : LDAPUserProvider)
    (inputUsername : String) (profile : Option ldapUserProfile) :
    (resolveGroupsFilter x p inputUsername profile).2 = none := by
  unfold resolveGroupsFilter
  cases profile <;> rfl

/-- C13: a call of `GetDetails` that succeeds has connected, resolved the profile and run the
group search with a result; the details it returns carry the username, display name and emails
of the profile, and as groups the values of the first attribute of each group record, in
encounter order and with repetitions kept, over the longest initial run of records that have an
attribute: the first record without attributes ends the list and raises no error. -/
theorem GetDetails_flattens_groups (x : Externals) (p : LDAPUserProvider) (env : Env)
    (username : String) (t t1 : Trace) (details : UserDetails)
    (hok : GetDetails x p env username t = (.ret (.ok details), t1)) :
    ∃ conn tc profile tp searchResult ts,
      connect p env t = (.ok conn, tc)
      ∧ getUserProfile x p env conn username tc = (.ret (.ok profile), tp)
      ∧ search x p env conn
          (GetDetailsSearchRequest p (resolveGroupsFilter x p username (some profile)).1) tp
          = (.ret (some searchResult, none), ts)
      ∧ t1 = ts ++ [.close conn]
      ∧ details.Groups = flattenedGroups searchResult.Entries
      ∧ details.Username = profile.Username
      ∧ details.DisplayName = profile.DisplayName
      ∧ details.Emails = profile.Emails := by
  rcases hc : connect p env t with ⟨err | conn, tc⟩
  · simp [GetDetails, hc] at hok
  · rcases hp : getUserProfile x p env conn username tc with ⟨⟨err | profile⟩ | msg, tp⟩
    · simp [GetDetails, hc, hp] at hok
    · have hfilter := resolveGroupsFilter_no_error x p username (some profile)
      rcases hf : resolveGroupsFilter x p username (some profile) with ⟨filter, ferr⟩
      rw [hf] at hfilter
      simp only at hfilter
      subst hfilter
      rcases hs : search x p env conn (GetDetailsSearchRequest p filter) tp
        with ⟨⟨_ | searchResult, _ | serr⟩ | msg, ts⟩
      · simp [GetDetails, hc, hp, hf, hs] at hok
      · simp [GetDetails, hc, hp, hf, hs] at hok
      · simp only [GetDetails, hc, hp, hf, hs, connClose, GetDetailsGroups_eq_flattenedGroups,
          Prod.mk.injEq, Outcome.ret.injEq, Except.ok.injEq] at hok
        obtain ⟨hd, ht⟩ := hok
        subst hd
        exact ⟨conn, tc, profile, tp, searchResult, ts, rfl, hp, by rw [hf]; exact hs,
          ht.symm, by simp, rfl, rfl, rfl⟩
      · simp [GetDetails, hc, hp, hf, hs] at hok
      · simp [GetDetails, hc, hp, hf, hs] at hok
    · simp [GetDetails, hc, hp] at hok

/-- Instance of C13: alice in the directory with the example group records.  The groups are
`admins, staff, staff`: the repetition is kept, and the record after the one without attributes
is not read. -/
theorem GetDetails_flattens_groups_witness :
    GetDetails exampleExternals (exampleProvider false false "custom") groupsDirectory
        "alice" []
      = (.ret (.ok { Username := "alice", DisplayName := "", Emails := ["alice@example.com"],
                     Groups := ["admins", "staff", "staff"] }),
         exampleResolved ++
          [.search 0
            (GetDetailsSearchRequest (exampleProvider false false "custom")
              "(member=uid=alice,ou=users,dc=example,dc=com)")
            (.ok { Entries := exampleGroupEntries, Referrals := [] }),
           .close 0])
    ∧ ∃ conn tc profile tp searchResult ts,
      connect (exampleProvider false false "custom") groupsDirectory [] = (.ok conn, tc)
      ∧ getUserProfile exampleExternals (exampleProvider false false "custom") groupsDirectory
          conn "alice" tc = (.ret (.ok profile), tp)
      ∧ search exampleExternals (exampleProvider false false "custom") groupsDirectory conn
          (GetDetailsSearchRequest (exampleProvider false false "custom")
            (resolveGroupsFilter exampleExternals (exampleProvider false false "custom")
              "alice" (some profile)).1) tp
          = (.ret (some searchResult, none), ts)
      ∧ exampleResolved ++
          [.search 0
            (GetDetailsSearchRequest (exampleProvider false false "custom")
              "(member=uid=alice,ou=users,dc=example,dc=com)")
            (.ok { Entries := exampleGroupEntries, Referrals := [] }),
           .close 0] = ts ++ [.close conn]
      ∧ ["admins", "staff", "staff"] = flattenedGroups searchResult.Entries
      ∧ "alice" = profile.Username
      ∧ "" = profile.DisplayName
      ∧ ["alice@example.com"] = profile.Emails :=
  ⟨rfl, GetDetails_flattens_groups exampleExternals (exampleProvider false false "custom")
    groupsDirectory "alice" [] _ _ rfl⟩

/-! ## Replacement and escaping -/

theorem stringsReplaceAllAux_skip_eq (old new : List Char) (skipped rest : List Char) :
    stringsReplaceAllAux old new skipped.length (skipped ++ rest)
      = stringsReplaceAllAux old new 0 rest := by
  induction skipped with
  | nil => rfl
  | cons c cs ih => simpa [stringsReplaceAllAux] using ih

theorem stringsReplaceAllAux_old (old new rest : List Char) (hold : old ≠ []) :
    stringsReplaceAllAux old new 0 (old ++ rest) = new ++ stringsReplaceAllAux old new 0 rest := by
  cases old with
  | nil => exact absurd rfl hold
  | cons o os =>
    have hpre : (o :: os).isPrefixOf (o :: (os ++ rest)) = true := by
      rw [List.isPrefixOf_iff_prefix]
      exact ⟨rest, rfl⟩
    have hskip := stringsReplaceAllAux_skip_eq (o :: os) new os rest
    simp only [List.cons_append, stringsReplaceAllAux, hpre, if_true, List.length_cons,
      Nat.add_sub_cancel]
    simp [hskip]

theorem stringsReplaceAllAux_before (old new before rest : List Char) (hold : old ≠ [])
    (hfirst : ∀ k < before.length, ¬ old <+: (before ++ rest).drop k) :
    stringsReplaceAllAux old new 0 (before ++ rest)
      = before ++ stringsReplaceAllAux old new 0 rest := by
  induction before with
  | nil => rfl
  | cons c cs ih =>
    have h0 : ¬ old <+: (c :: cs ++ rest) := by
      have := hfirst 0 (by simp)
      simpa using this
    have hpre : old.isPrefixOf (c :: (cs ++ rest)) = false := by
      rw [Bool.eq_false_iff]
      intro h
      exact h0 ((List.isPrefixOf_iff_prefix).mp h)
    have htail : ∀ k < cs.length, ¬ old <+: (cs ++ rest).drop k := by
      intro k hk
      have := hfirst (k + 1) (by simpa using hk)
      simpa using this
    simp [stringsReplaceAllAux, hold, hpre, ih htail]

theorem stringsReplaceAllAux_first (old new before rest : List Char) (hold : old ≠ [])
    (hfirst : ∀ k < before.length, ¬ old <+: (before ++ old ++ rest).drop k) :
    stringsReplaceAllAux old new 0 (before ++ old ++ rest)
      = before ++ new ++ stringsReplaceAllAux old new 0 rest := by
  rw [List.append_assoc, stringsReplaceAllAux_before old new before (old ++ rest) hold
    (by simpa [List.append_assoc] using hfirst), stringsReplaceAllAux_old old new rest hold,
    List.append_assoc]

theorem isFilterMetacharacter_cases (c : Char) (h : isFilterMetacharacter c = true) :
    c = Char.ofNat 92 ∨ c = '*' ∨ c = '(' ∨ c = ')' ∨ c = Char.ofNat 0 := by
  simpa [isFilterMetacharacter, or_assoc] using h

theorem ldapEscape_data_cons (c : Char) (cs : List Char) :
    (ldapEscape (String.mk (c :: cs))).data
      = (if isFilterMetacharacter c then filterEscapeByte c.toNat else [c])
          ++ (ldapEscape (String.mk cs)).data := by
  simp [ldapEscape]

theorem ldapEscape_escapedOnly (cs : List Char) :
    escapedOnly (ldapEscape (String.mk cs)).data = true := by
  induction cs with
  | nil => rfl
  | cons c cs ih =>
    rw [ldapEscape_data_cons]
    by_cases hm : isFilterMetacharacter c = true
    · rcases isFilterMetacharacter_cases c hm with h | h | h | h | h <;> subst h <;>
        simpa [escapedOnly, isFilterMetacharacter, filterEscapeByte, hexDigit,
          isMetacharacterCode] using ih
    · have hb : c ≠ Char.ofNat 92 := by
        intro h
        subst h
        exact hm (by decide)
      simp only [hm, Bool.false_eq_true, if_false, List.singleton_append]
      rw [escapedOnly.eq_def]
      simp [hb, hm, ih]

theorem ldapEscape_no_metacharacter (cs : List Char) :
    ∀ c ∈ (ldapEscape (String.mk cs)).data,
      c ≠ '*' ∧ c ≠ '(' ∧ c ≠ ')' ∧ c ≠ Char.ofNat 0 := by
  induction cs with
  | nil => intro c hc; simp [ldapEscape] at hc
  | cons d ds ih =>
    intro c hc
    rw [ldapEscape_data_cons, List.mem_append] at hc
    rcases hc with hc | hc
    · by_cases hm : isFilterMetacharacter d = true
      · have key : ∀ e, isFilterMetacharacter e = true → ∀ a ∈ filterEscapeByte e.toNat,
            a ≠ '*' ∧ a ≠ '(' ∧ a ≠ ')' ∧ a ≠ Char.ofNat 0 := by
          intro e he
          rcases isFilterMetacharacter_cases e he with h | h | h | h | h <;> subst h <;> decide
        rw [if_pos hm] at hc
        exact key d hm c hc
      · simp only [hm, Bool.false_eq_true, if_false, List.mem_singleton] at hc
        subst hc
        have hm2 : isFilterMetacharacter c = false := by simpa using hm
        simp only [isFilterMetacharacter, Bool.or_eq_false_iff, decide_eq_false_iff_not] at hm2
        exact ⟨hm2.1.1.1.2, hm2.1.1.2, hm2.1.2, hm2.2⟩
    · exact ih c hc

theorem ldapEscape_unescape (cs : List Char) :
    unescapeFilter (ldapEscape (String.mk cs)).data = some cs := by
  induction cs with
  | nil => rfl
  | cons c cs ih =>
    rw [ldapEscape_data_cons]
    by_cases hm : isFilterMetacharacter c = true
    · rcases isFilterMetacharacter_cases c hm with h | h | h | h | h <;> subst h <;>
        simp [unescapeFilter, isFilterMetacharacter, filterEscapeByte, hexDigit, ih]
    · have hb : c ≠ Char.ofNat 92 := by
        intro h
        subst h
        exact hm (by decide)
      simp only [hm, Bool.false_eq_true, if_false, List.singleton_append]
      rw [unescapeFilter.eq_def]
      simp [hb, ih]

/-- C12: when the user filter holds the placeholder (the flag recorded at construction is set)
and `ldapEscape` escapes as the spec says, `resolveUsersFilter` is the template with
`ldapEscape inputUsername` in place of the placeholder: for the first occurrence the result is
the text before it, that segment, then the rest treated the same way.  The segment holds no
asterisk, parenthesis or NUL, every backslash in it starts the escape sequence of one of the
five metacharacters, and reading the escape sequences back gives the raw input: each
metacharacter of the input is there in escaped form only. -/
theorem resolveUsersFilter_escapes_input (x : Externals) (p : LDAPUserProvider)
    (inputUsername : String)
    (hflag : p.usersFilterReplacementInput = true) (hescape : x.ldapEscape = ldapEscape) :
    resolveUsersFilter x p inputUsername
      = stringsReplaceAll p.config.UsersFilter x.ldapPlaceholderInput (ldapEscape inputUsername)
    ∧ (∀ before after : List Char, x.ldapPlaceholderInput.data ≠ [] →
        p.config.UsersFilter.data = before ++ x.ldapPlaceholderInput.data ++ after →
        (∀ k < before.length,
          ¬ x.ldapPlaceholderInput.data
              <+: (before ++ x.ldapPlaceholderInput.data ++ after).drop k) →
        (resolveUsersFilter x p inputUsername).data
          = before ++ (ldapEscape inputUsername).data
              ++ (stringsReplaceAll (String.mk after) x.ldapPlaceholderInput
                    (ldapEscape inputUsername)).data)
    ∧ escapedOnly (ldapEscape inputUsername).data = true
    ∧ (∀ c ∈ (ldapEscape inputUsername).data,
        c ≠ '*' ∧ c ≠ '(' ∧ c ≠ ')' ∧ c ≠ Char.ofNat 0)
    ∧ unescapeFilter (ldapEscape inputUsername).data = some inputUsername.data := by
  have heq : resolveUsersFilter x p inputUsername
      = stringsReplaceAll p.config.UsersFilter x.ldapPlaceholderInput
          (ldapEscape inputUsername) := by
    simp [resolveUsersFilter, hflag, hescape]
  refine ⟨heq, ?_, ldapEscape_escapedOnly inputUsername.data,
    ldapEscape_no_metacharacter inputUsername.data, ldapEscape_unescape inputUsername.data⟩
  intro before after hold htemplate hfirst
  rw [heq]
  simp only [stringsReplaceAll, htemplate]
  exact stringsReplaceAllAux_first _ _ before after hold hfirst

/-- Instance of C12: the input `*)(uid=*` in the user filter `(uid={input})`. -/
theorem resolveUsersFilter_escapes_input_witness :
    resolveUsersFilter escapingExternals (exampleProvider false false "custom") "*)(uid=*"
      = "(uid=\\2a\\29\\28uid=\\2a)"
    ∧ (resolveUsersFilter escapingExternals (exampleProvider false false "custom")
        "*)(uid=*").data
      = "(uid=".data ++ (ldapEscape "*)(uid=*").data
          ++ (stringsReplaceAll (String.mk ")".data) "{input}" (ldapEscape "*)(uid=*")).data
    ∧ escapedOnly (ldapEscape "*)(uid=*").data = true
    ∧ unescapeFilter (ldapEscape "*)(uid=*").data = some "*)(uid=*".data :=
  ⟨(resolveUsersFilter_escapes_input escapingExternals (exampleProvider false false "custom")
      "*)(uid=*" rfl rfl).1.trans (by decide),
   (resolveUsersFilter_escapes_input escapingExternals (exampleProvider false false "custom")
      "*)(uid=*" rfl rfl).2.1 "(uid=".data ")".data (by decide) (by decide) (by decide),
   (resolveUsersFilter_escapes_input escapingExternals (exampleProvider false false "custom")
      "*)(uid=*" rfl rfl).2.2.1,
   (resolveUsersFilter_escapes_input escapingExternals (exampleProvider false false "custom")
      "*)(uid=*" rfl rfl).2.2.2.2⟩

/-! ## Successive replacement against one-pass substitution -/

theorem not_prefix_of_no_brace (old body w rest : List Char) (hold : old = '{' :: body)
    (hw : ∀ c ∈ w, c ≠ '{') :
    ∀ k < w.length, ¬ old <+: (w ++ rest).drop k := by
  intro k hk hpre
  have hdrop : (w ++ rest).drop k = w.get ⟨k, hk⟩ :: (w.drop (k + 1) ++ rest) := by
    rw [List.drop_append_of_le_length (Nat.le_of_lt hk)]
    rw [List.drop_eq_getElem_cons hk]
    rfl
  rw [hdrop, hold] at hpre
  have hhead := (List.cons_prefix_cons.mp hpre).1
  exact hw _ (List.get_mem w k hk) hhead.symm

theorem not_prefix_of_other_placeholder (old w rest : List Char) (a b : Char)
    (oldBody wBody : List Char) (hold : old = '{' :: a :: oldBody) (hw : w = '{' :: b :: wBody)
    (hab : a ≠ b) (hbody : ∀ c ∈ b :: wBody, c ≠ '{') :
    ∀ k < w.length, ¬ old <+: (w ++ rest).drop k := by
  intro k hk hpre
  subst hw
  cases k with
  | zero =>
    rw [hold] at hpre
    simp only [List.drop_zero, List.cons_append] at hpre
    have h1 := (List.cons_prefix_cons.mp hpre).2
    exact hab (List.cons_prefix_cons.mp h1).1
  | succ j =>
    have hj : j < (b :: wBody).length := by simpa using hk
    exact not_prefix_of_no_brace old (a :: oldBody) (b :: wBody) rest hold hbody j hj
      (by simpa using hpre)

theorem renderTemplate_update_absent (value : Placeholder → List Char) (ph : Placeholder)
    (new : List Char) (pieces : List TemplatePiece) (habsent : .hole ph ∉ pieces) :
    renderTemplate (Function.update value ph new) pieces = renderTemplate value pieces := by
  induction pieces with
  | nil => rfl
  | cons piece rest ih =>
    have hrest : TemplatePiece.hole ph ∉ rest := fun h => habsent (List.mem_cons_of_mem _ h)
    cases piece with
    | text c => simp [renderTemplate, ih hrest]
    | hole q =>
      have hq : q ≠ ph := by
        intro h
        subst h
        exact habsent (List.mem_cons_self _ _)
      simp [renderTemplate, ih hrest, Function.update_noteq hq]

theorem stringsReplaceAllAux_renderTemplate (old body new : List Char) (ph : Placeholder)
    (value : Placeholder → List Char) (pieces : List TemplatePiece)
    (hold : old = '{' :: body) (hvalue : value ph = old)
    (hothers : ∀ q, q ≠ ph → ∀ rest, ∀ k < (value q).length,
      ¬ old <+: (value q ++ rest).drop k)
    (htext : ∀ c, .text c ∈ pieces → c ≠ '{') :
    stringsReplaceAllAux old new 0 (renderTemplate value pieces)
      = renderTemplate (Function.update value ph new) pieces := by
  have hne : old ≠ [] := by rw [hold]; simp
  induction pieces with
  | nil => simp [renderTemplate, stringsReplaceAllAux, hne]
  | cons piece rest ih =>
    have ihrest := ih (fun c hc => htext c (List.mem_cons_of_mem _ hc))
    cases piece with
    | text c =>
      have hc : c ≠ '{' := htext c (List.mem_cons_self _ _)
      have hpre : old.isPrefixOf (c :: renderTemplate value rest) = false := by
        rw [Bool.eq_false_iff]
        intro h
        rw [List.isPrefixOf_iff_prefix, hold] at h
        exact hc (List.cons_prefix_cons.mp h).1.symm
      simp [renderTemplate, stringsReplaceAllAux, hne, hpre, ihrest]
    | hole q =>
      by_cases hq : q = ph
      · subst hq
        simp only [renderTemplate, hvalue, Function.update_same]
        rw [stringsReplaceAllAux_old old new _ hne, ihrest]
      · simp only [renderTemplate, Function.update_noteq hq]
        rw [stringsReplaceAllAux_before old new _ _ hne (hothers q hq _), ihrest]

theorem placeholderText_input :
    placeholderText .input = ['{', 'i', 'n', 'p', 'u', 't', '}'] := rfl

theorem placeholderText_username :
    placeholderText .username = ['{', 'u', 's', 'e', 'r', 'n', 'a', 'm', 'e', '}'] := rfl

theorem placeholderText_dn : placeholderText .dn = ['{', 'd', 'n', '}'] := rfl

theorem substitutePlaceholdersAux_skip_eq (value : Placeholder → List Char)
    (skipped rest : List Char) :
    substitutePlaceholdersAux value skipped.length (skipped ++ rest)
      = substitutePlaceholdersAux value 0 rest := by
  induction skipped with
  | nil => rfl
  | cons c cs ih => simpa [substitutePlaceholdersAux] using ih

theorem substitutePlaceholdersAux_hole (value : Placeholder → List Char) (ph : Placeholder)
    (rest : List Char) :
    substitutePlaceholdersAux value 0 (placeholderText ph ++ rest)
      = value ph ++ substitutePlaceholdersAux value 0 rest := by
  cases ph with
  | input =>
    have hskip := substitutePlaceholdersAux_skip_eq value ['i', 'n', 'p', 'u', 't', '}'] rest
    simp only [placeholderText_input, List.cons_append, List.nil_append, List.length_cons,
      List.length_nil] at hskip ⊢
    rw [substitutePlaceholdersAux]
    simp only [placeholderText_input, List.isPrefixOf, List.length_cons, List.length_nil]
    simpa using hskip
  | username =>
    have hskip := substitutePlaceholdersAux_skip_eq value
      ['u', 's', 'e', 'r', 'n', 'a', 'm', 'e', '}'] rest
    simp only [placeholderText_username, List.cons_append, List.nil_append, List.length_cons,
      List.length_nil] at hskip ⊢
    rw [substitutePlaceholdersAux]
    simp only [placeholderText_input, placeholderText_username, List.isPrefixOf,
      List.length_cons, List.length_nil]
    simpa using hskip
  | dn =>
    have hskip := substitutePlaceholdersAux_skip_eq value ['d', 'n', '}'] rest
    simp only [placeholderText_dn, List.cons_append, List.nil_append, List.length_cons,
      List.length_nil] at hskip ⊢
    rw [substitutePlaceholdersAux]
    simp only [placeholderText_input, placeholderText_username, placeholderText_dn,
      List.isPrefixOf, List.length_cons, List.length_nil]
    simpa using hskip

theorem substitutePlaceholdersAux_renderTemplate (value : Placeholder → List Char)
    (pieces : List TemplatePiece) (htext : ∀ c, .text c ∈ pieces → c ≠ '{') :
    substitutePlaceholdersAux value 0 (renderTemplate placeholderText pieces)
      = renderTemplate value pieces := by
  induction pieces with
  | nil => rfl
  | cons piece rest ih =>
    have ihrest := ih (fun c hc => htext c (List.mem_cons_of_mem _ hc))
    cases piece with
    | text c =>
      have hc : c ≠ '{' := htext c (List.mem_cons_self _ _)
      have hc2 : ('{' == c) = false := by simpa using fun h => hc h.symm
      simp only [renderTemplate]
      rw [substitutePlaceholdersAux]
      simp [placeholderText_input, placeholderText_username, placeholderText_dn,
        List.isPrefixOf, hc2, ihrest]
    | hole q =>
      simp only [renderTemplate]
      rw [substitutePlaceholdersAux_hole, ihrest]

theorem placeholderText_brace (ph : Placeholder) :
    ∃ a body, placeholderText ph = '{' :: a :: body ∧ ∀ c ∈ a :: body, c ≠ '{' := by
  cases ph
  · exact ⟨'i', ['n', 'p', 'u', 't', '}'], rfl, by decide⟩
  · exact ⟨'u', ['s', 'e', 'r', 'n', 'a', 'm', 'e', '}'], rfl, by decide⟩
  · exact ⟨'d', ['n', '}'], rfl, by decide⟩

theorem placeholderText_second_ne (ph q : Placeholder) (h : q ≠ ph) :
    (placeholderText ph).tail.head? ≠ (placeholderText q).tail.head? := by
  cases ph <;> cases q <;> first | exact absurd rfl h | decide

theorem placeholderText_inert (ph q : Placeholder) (h : q ≠ ph) (rest : List Char) :
    ∀ k < (placeholderText q).length,
      ¬ placeholderText ph <+: (placeholderText q ++ rest).drop k := by
  obtain ⟨a, body, hph, -⟩ := placeholderText_brace ph
  obtain ⟨b, wBody, hq, hbody⟩ := placeholderText_brace q
  have hab : a ≠ b := by
    intro hEq
    have := placeholderText_second_ne ph q h
    rw [hph, hq] at this
    exact this (by simp [hEq])
  exact not_prefix_of_other_placeholder _ _ rest a b body wBody hph hq hab hbody

theorem replacement_pass (flag : Bool) (ph : Placeholder) (new : List Char)
    (value : Placeholder → List Char) (pieces : List TemplatePiece)
    (hflag : .hole ph ∈ pieces → flag = true) (hvalue : value ph = placeholderText ph)
    (hothers : ∀ q, q ≠ ph →
      value q = placeholderText q ∨ ∀ c ∈ value q, c ≠ '{')
    (htext : ∀ c, .text c ∈ pieces → c ≠ '{') :
    (if flag = true then
        stringsReplaceAllAux (placeholderText ph) new 0 (renderTemplate value pieces)
      else renderTemplate value pieces)
      = renderTemplate (Function.update value ph new) pieces := by
  obtain ⟨a, body, hph, -⟩ := placeholderText_brace ph
  have hrun : stringsReplaceAllAux (placeholderText ph) new 0 (renderTemplate value pieces)
      = renderTemplate (Function.update value ph new) pieces := by
    refine stringsReplaceAllAux_renderTemplate (placeholderText ph) (a :: body) new ph value
      pieces hph hvalue ?_ htext
    intro q hq rest
    rcases hothers q hq with hsame | hnone
    · rw [hsame]
      exact placeholderText_inert ph q hq rest
    · exact not_prefix_of_no_brace _ (a :: body) _ rest hph hnone
  cases flag with
  | true => simpa using hrun
  | false =>
    have habsent : TemplatePiece.hole ph ∉ pieces := fun h => by simpa using hflag h
    simp [renderTemplate_update_absent value ph new pieces habsent]

theorem resolveGroupsFilter_data_none (x : Externals) (p : LDAPUserProvider)
    (inputUsername : String) :
    (resolveGroupsFilter x p inputUsername none).1.data
      = if p.groupsFilterReplacementInput = true then
          stringsReplaceAllAux x.ldapPlaceholderInput.data (x.ldapEscape inputUsername).data 0
            p.config.GroupsFilter.data
        else p.config.GroupsFilter.data := by
  cases h1 : p.groupsFilterReplacementInput <;>
    simp [resolveGroupsFilter, stringsReplaceAll, h1]

theorem resolveGroupsFilter_data_some (x : Externals) (p : LDAPUserProvider)
    (inputUsername : String) (prof : ldapUserProfile) :
    (resolveGroupsFilter x p inputUsername (some prof)).1.data
      = (if p.groupsFilterReplacementDN = true then
          stringsReplaceAllAux x.ldapPlaceholderDistinguishedName.data
            (x.EscapeFilter prof.DN).data 0
        else id)
        ((if p.groupsFilterReplacementUsername = true then
            stringsReplaceAllAux x.ldapPlaceholderUsername.data
              (x.EscapeFilter prof.Username).data 0
          else id)
          (if p.groupsFilterReplacementInput = true then
            stringsReplaceAllAux x.ldapPlaceholderInput.data (x.ldapEscape inputUsername).data 0
              p.config.GroupsFilter.data
          else p.config.GroupsFilter.data)) := by
  cases h1 : p.groupsFilterReplacementInput <;> cases h2 : p.groupsFilterReplacementUsername <;>
    cases h3 : p.groupsFilterReplacementDN <;>
    simp [resolveGroupsFilter, stringsReplaceAll, h1, h2, h3]

/-- C15 as amended: `resolveGroupsFilter` makes successive replacements over the whole text,
`{input}` first, then (with a profile) `{username}`, then `{dn}`, each only when its flag was
recorded.  For a template in which every opening brace starts a placeholder it returns the
template with each occurrence of a placeholder replaced by its value, whenever, with a profile,
the escaped input and the escaped username hold no opening brace; with no profile it does so
for every input, and `{username}` and `{dn}` are left untouched. -/
theorem resolveGroupsFilter_successive_passes (x : Externals) (p : LDAPUserProvider)
    (inputUsername : String)
    (hinput : x.ldapPlaceholderInput = "{input}")
    (husername : x.ldapPlaceholderUsername = "{username}")
    (hdn : x.ldapPlaceholderDistinguishedName = "{dn}") :
    (∀ prof : ldapUserProfile,
        (resolveGroupsFilter x p inputUsername (some prof)).1
          = (if p.groupsFilterReplacementDN = true then
              fun filter => stringsReplaceAll filter "{dn}" (x.EscapeFilter prof.DN)
            else id)
            ((if p.groupsFilterReplacementUsername = true then
                fun filter => stringsReplaceAll filter "{username}"
                  (x.EscapeFilter prof.Username)
              else id)
              (resolveGroupsFilter x p inputUsername none).1))
    ∧ (∀ pieces : List TemplatePiece,
        p.config.GroupsFilter.data = renderTemplate placeholderText pieces →
        (∀ piece ∈ pieces, piece ≠ TemplatePiece.text '{') →
        (.hole .input ∈ pieces → p.groupsFilterReplacementInput = true) →
        (.hole .username ∈ pieces → p.groupsFilterReplacementUsername = true) →
        (.hole .dn ∈ pieces → p.groupsFilterReplacementDN = true) →
        (resolveGroupsFilter x p inputUsername none
            = (substitutePlaceholders (groupsFilterValue x inputUsername none)
                p.config.GroupsFilter, none)
          ∧ (resolveGroupsFilter x p inputUsername none).1.data
            = renderTemplate (groupsFilterValue x inputUsername none) pieces)
        ∧ (∀ prof : ldapUserProfile,
            (∀ c ∈ (x.ldapEscape inputUsername).data, c ≠ '{') →
            (∀ c ∈ (x.EscapeFilter prof.Username).data, c ≠ '{') →
            resolveGroupsFilter x p inputUsername (some prof)
              = (substitutePlaceholders (groupsFilterValue x inputUsername (some prof))
                  p.config.GroupsFilter, none)
            ∧ (resolveGroupsFilter x p inputUsername (some prof)).1.data
              = renderTemplate (groupsFilterValue x inputUsername (some prof)) pieces)) := by
  refine ⟨?_, ?_⟩
  · intro prof
    cases h1 : p.groupsFilterReplacementInput <;>
      cases h2 : p.groupsFilterReplacementUsername <;>
      cases h3 : p.groupsFilterReplacementDN <;>
      simp [resolveGroupsFilter, h1, h2, h3, husername, hdn]
  intro pieces htemplate hbrace hflagInput hflagUsername hflagDN
  have htext : ∀ c, TemplatePiece.text c ∈ pieces → c ≠ '{' :=
    fun c hc h => hbrace _ hc (by rw [h])
  have hsubst : ∀ value : Placeholder → List Char,
      substitutePlaceholders value p.config.GroupsFilter
        = String.mk (renderTemplate value pieces) := by
    intro value
    simp [substitutePlaceholders, htemplate,
      substitutePlaceholdersAux_renderTemplate value pieces htext]
  have hstring : ∀ (r : String × Option GoError) (d : List Char),
      r.2 = none → r.1.data = d → r = (String.mk d, none) := by
    rintro ⟨s, e⟩ d he hd
    simp only at he hd
    subst he
    subst hd
    rfl
  have hpass1 :
      (if p.groupsFilterReplacementInput = true then
          stringsReplaceAllAux x.ldapPlaceholderInput.data (x.ldapEscape inputUsername).data 0
            p.config.GroupsFilter.data
        else p.config.GroupsFilter.data)
        = renderTemplate (Function.update placeholderText .input
            (x.ldapEscape inputUsername).data) pieces := by
    rw [htemplate, hinput]
    exact replacement_pass _ .input _ placeholderText pieces hflagInput rfl
      (fun q _ => Or.inl rfl) htext
  have hnone : (resolveGroupsFilter x p inputUsername none).1.data
      = renderTemplate (groupsFilterValue x inputUsername none) pieces := by
    rw [resolveGroupsFilter_data_none, hpass1]
    congr 1
    funext q
    cases q <;> rfl
  refine ⟨⟨?_, hnone⟩, ?_⟩
  · rw [hsubst]
    exact hstring _ _ (resolveGroupsFilter_no_error x p inputUsername none) hnone
  · intro prof hvalue1 hvalue2
    have hsome : (resolveGroupsFilter x p inputUsername (some prof)).1.data
        = renderTemplate (groupsFilterValue x inputUsername (some prof)) pieces := by
      rw [resolveGroupsFilter_data_some, hpass1, husername, hdn]
      have hpass2 := replacement_pass p.groupsFilterReplacementUsername .username
        (x.EscapeFilter prof.Username).data
        (Function.update placeholderText .input (x.ldapEscape inputUsername).data) pieces
        hflagUsername rfl
        (by
          intro q hq
          cases q
          · right; simpa using hvalue1
          · exact absurd rfl hq
          · left; rfl)
        htext
      have hpass3 := replacement_pass p.groupsFilterReplacementDN .dn
        (x.EscapeFilter prof.DN).data
        (Function.update
          (Function.update placeholderText .input (x.ldapEscape inputUsername).data)
          .username (x.EscapeFilter prof.Username).data) pieces
        hflagDN rfl
        (by
          intro q hq
          cases q
          · right; simpa using hvalue1
          · right; simpa using hvalue2
          · exact absurd rfl hq)
        htext
      have hfinal : Function.update
          (Function.update
            (Function.update placeholderText .input (x.ldapEscape inputUsername).data)
            .username (x.EscapeFilter prof.Username).data)
          .dn (x.EscapeFilter prof.DN).data
          = groupsFilterValue x inputUsername (some prof) := by
        funext q
        cases q <;> rfl
      rw [← hfinal, ← hpass3, ← hpass2]
      cases p.groupsFilterReplacementUsername <;> cases p.groupsFilterReplacementDN <;> rfl
    refine ⟨?_, hsome⟩
    rw [hsubst]
    exact hstring _ _ (resolveGroupsFilter_no_error x p inputUsername (some prof)) hsome

/-- Instance of the amended C15: the input `alice` in the groups filter
`(&(member={dn})(uid={input}))`, without and with the profile of alice, and the input `{dn}`
without a profile. -/
theorem resolveGroupsFilter_successive_passes_witness :
    resolveGroupsFilter escapingExternals memberProvider "alice" none
      = ("(&(member={dn})(uid=alice))", none)
    ∧ resolveGroupsFilter escapingExternals memberProvider "{dn}" none
      = ("(&(member={dn})(uid={dn}))", none)
    ∧ resolveGroupsFilter escapingExternals memberProvider "alice" (some aliceProfile)
      = ("(&(member=uid=alice,ou=users,dc=example,dc=com)(uid=alice))", none)
    ∧ (resolveGroupsFilter escapingExternals memberProvider "{dn}" (some aliceProfile)).1
      = stringsReplaceAll "(&(member={dn})(uid={dn}))" "{dn}"
          (EscapeFilter "uid=alice,ou=users,dc=example,dc=com") :=
  ⟨((resolveGroupsFilter_successive_passes escapingExternals memberProvider "alice"
      rfl rfl rfl).2 memberPieces (by decide) (by decide) (fun _ => rfl) (by decide)
      (fun _ => rfl)).1.1.trans (by decide),
   ((resolveGroupsFilter_successive_passes escapingExternals memberProvider "{dn}"
      rfl rfl rfl).2 memberPieces (by decide) (by decide) (fun _ => rfl) (by decide)
      (fun _ => rfl)).1.1.trans (by decide),
   (((resolveGroupsFilter_successive_passes escapingExternals memberProvider "alice"
      rfl rfl rfl).2 memberPieces (by decide) (by decide) (fun _ => rfl) (by decide)
      (fun _ => rfl)).2 aliceProfile (by decide) (by decide)).1.trans (by decide),
   ((resolveGroupsFilter_successive_passes escapingExternals memberProvider "{dn}"
      rfl rfl rfl).1 aliceProfile).trans (by decide)⟩

/-- C15 as stated fails: with the groups filter `(&(member={dn})(uid={input}))`, the input
`{dn}` and the profile of alice, the template with each placeholder occurrence replaced keeps
the input as `{dn}`, but `resolveGroupsFilter` returns a filter in which the text of the input
has been replaced by the DN of the profile.  The same happens, whatever `ldapEscape` does, to a
profile username equal to `{dn}` in the filter `(&(member={dn})(cn={username}))`. -/
theorem resolveGroupsFilter_replaces_placeholder_text_of_input :
    (resolveGroupsFilter escapingExternals memberProvider "{dn}" (some aliceProfile)).1
      = "(&(member=uid=alice,ou=users,dc=example,dc=com)(uid=uid=alice,ou=users,dc=example,dc=com))"
    ∧ substitutePlaceholders (groupsFilterValue escapingExternals "{dn}" (some aliceProfile))
        memberProvider.config.GroupsFilter
      = "(&(member=uid=alice,ou=users,dc=example,dc=com)(uid={dn}))"
    ∧ (resolveGroupsFilter escapingExternals memberProvider "{dn}" (some aliceProfile)).1
      ≠ substitutePlaceholders (groupsFilterValue escapingExternals "{dn}" (some aliceProfile))
          memberProvider.config.GroupsFilter
    ∧ (resolveGroupsFilter escapingExternals usernameProvider "eve" (some bracedProfile)).1
      = "(&(member=uid=eve,ou=users,dc=example,dc=com)(cn=uid=eve,ou=users,dc=example,dc=com))"
    ∧ substitutePlaceholders (groupsFilterValue escapingExternals "eve" (some bracedProfile))
        usernameProvider.config.GroupsFilter
      = "(&(member=uid=eve,ou=users,dc=example,dc=com)(cn={dn}))" := by
  decide

end Authelia
